import Mathlib

set_option maxHeartbeats 1000000

/-! Verification of the DAG builder core (hathor/dag_builder/builder.py):
node registry, relationship-recording operations and the Kahn-style
topological sort. Python dict/set state is embedded as insertion-ordered
duplicate-free lists; fallible paths (assertion failures, ValueError)
return Except. -/

/-- Kinds a DAG node can have. Modelled from the spec: the DAGNodeType
enumeration lives in the types module, which is not under src/; the spec
lists the closed kind set as unresolved (Unknown), transaction, block,
token, plus further custom kinds (genesis being the one the surrounding
system mentions). -/
inductive DAGNodeType where
  | Unknown
  | Block
  | Transaction
  | Token
  | Genesis
deriving DecidableEq, Repr

/-- Modelled from the spec: the string-to-kind conversion used by the
reserved type attribute (DAGNodeType(value) in the source); a string
outside the closed kind set is a fatal error (ValueError). -/
def DAGNodeType.ofString : String → Option DAGNodeType
  | "unknown" => some .Unknown
  | "block" => some .Block
  | "transaction" => some .Transaction
  | "token" => some .Token
  | "genesis" => some .Genesis
  | _ => none

/-- One output descriptor: amount, token name, free-form attributes. -/
structure DAGOutput where
  amount : Nat
  token : String
  attrs : List (String × String)
deriving DecidableEq, Repr

/-- One input reference: source node name and spent output slot. -/
structure DAGInput where
  src : String
  index : Nat
deriving DecidableEq, Repr

/-- Modelled from the spec: a registry node (DAGNode of the types module,
which is not under src/). Python sets are embedded as insertion-ordered
duplicate-free lists; the sparse output list keeps unset slots as none. -/
structure DAGNode where
  name : String
  type : DAGNodeType
  parents : List String
  inputs : List DAGInput
  outputs : List (Option DAGOutput)
  deps : List String
  attrs : List (String × String)
deriving DecidableEq, Repr

/-- The node registry (self._nodes, a dict keyed by node name, embedded
as a list in insertion order; well-formed registries have no duplicate
names, matching dict semantics). -/
abbrev Registry := List DAGNode

/-- The key view of the registry dict. -/
def names (st : Registry) : List String := st.map (·.name)

/-- Dict lookup by name. -/
def findNode (st : Registry) (nm : String) : Option DAGNode :=
  st.find? (fun n => decide (n.name = nm))

/-- In-place mutation of the node registered under a name. -/
def updateNode (st : Registry) (nm : String) (f : DAGNode → DAGNode) : Registry :=
  st.map (fun n => if n.name = nm then f n else n)

/-- Python set.add on an insertion-ordered set. -/
def insertSet {α : Type} [DecidableEq α] (l : List α) (a : α) : List α :=
  if a ∈ l then l else l ++ [a]

/-- The zero-value placeholder output descriptor DAGOutput(0, '', {}). -/
def zeroOutput : DAGOutput := ⟨0, "", []⟩

/-- node.type = k. -/
def setTypeUpd (k : DAGNodeType) (n : DAGNode) : DAGNode := { n with type := k }

/-- from_node.parents.add(t). -/
def addParentUpd (t : String) (n : DAGNode) : DAGNode :=
  { n with parents := insertSet n.parents t }

/-- from_node.deps.add(t). -/
def addDepUpd (t : String) (n : DAGNode) : DAGNode :=
  { n with deps := insertSet n.deps t }

/-- from_node.inputs.add(DAGInput(t, idx)). -/
def addInputUpd (t : String) (idx : Nat) (n : DAGNode) : DAGNode :=
  { n with inputs := insertSet n.inputs ⟨t, idx⟩ }

/-- The output-list growth of add_spending_edge: when the spent slot is
out of range, extend with unset slots and put the zero-value placeholder
at the slot; otherwise leave the outputs untouched. -/
def spendGrowUpd (txoutIndex : Nat) (n : DAGNode) : DAGNode :=
  if n.outputs.length ≤ txoutIndex then
    let outs := (n.outputs ++ List.replicate (txoutIndex + 1 - n.outputs.length) none).set
      txoutIndex (some zeroOutput)
    { n with outputs := outs }
  else n

/-- The output write of set_output: grow with unset slots when the slot is
out of range, then overwrite the slot with the given descriptor. -/
def setOutputUpd (index amount : Nat) (token : String) (ats : List (String × String))
    (n : DAGNode) : DAGNode :=
  { n with outputs :=
      (if n.outputs.length ≤ index then
        n.outputs ++ List.replicate (index + 1 - n.outputs.length) none
      else n.outputs).set index (some ⟨amount, token, ats⟩) }

/-- The attrs write of add_attribute for a non-reserved key (dict item
assignment: replace the key when present, append otherwise). -/
def setAttrUpd (key value : String) (n : DAGNode) : DAGNode :=
  { n with attrs :=
      if (n.attrs.find? (fun p => decide (p.1 = key))).isSome then
        n.attrs.map (fun p => if p.1 = key then (key, value) else p)
      else n.attrs ++ [(key, value)] }

/-- DAGBuilder._get_or_create_node: return the registry after ensuring a
node exists. A conflict between an existing concrete kind and a concrete
default kind is the fatal KindMismatch (the assert in the source). -/
def get_or_create_node (st : Registry) (nm : String) (defaultType : DAGNodeType) :
    Except String Registry :=
  match findNode st nm with
  | none => .ok (st ++ [⟨nm, defaultType, [], [], [], [], []⟩])
  | some node =>
    if node.type = .Unknown then
      .ok (updateNode st nm (setTypeUpd defaultType))
    else if defaultType = .Unknown then
      .ok st
    else if node.type = defaultType then
      .ok st
    else
      .error "KindMismatch"

/-- DAGBuilder.add_deps: record an explicit ordering dependency. -/
def add_deps (st : Registry) (f t : String) : Except String Registry := do
  let st1 ← get_or_create_node st f .Unknown
  let st2 ← get_or_create_node st1 t .Unknown
  pure (updateNode st2 f (addDepUpd t))

/-- DAGBuilder.add_parent_edge: record a parent edge. -/
def add_parent_edge (st : Registry) (f t : String) : Except String Registry := do
  let st1 ← get_or_create_node st t .Unknown
  let st2 ← get_or_create_node st1 f .Unknown
  pure (updateNode st2 f (addParentUpd t))

/-- DAGBuilder.add_spending_edge: grow the source's outputs up to the spent
slot (placing the zero-value placeholder at the slot, new intermediate
slots stay unset) and record the input on the spender. -/
def add_spending_edge (st : Registry) (f t : String) (txoutIndex : Nat) :
    Except String Registry := do
  let st1 ← get_or_create_node st t .Unknown
  let st2 := updateNode st1 t (spendGrowUpd txoutIndex)
  let st3 ← get_or_create_node st2 f .Unknown
  pure (updateNode st3 f (addInputUpd t txoutIndex))

/-- DAGBuilder.set_output: write an output descriptor into a (possibly
grown) slot; a token other than the native unit HTR registers a token
node and becomes a dependency. -/
def set_output (st : Registry) (nm : String) (index amount : Nat) (token : String)
    (attrs : List (String × String)) : Except String Registry := do
  let st1 ← get_or_create_node st nm .Unknown
  let st2 := updateNode st1 nm (setOutputUpd index amount token attrs)
  if token = "HTR" then
    pure st2
  else do
    let st3 ← get_or_create_node st2 token .Token
    pure (updateNode st3 nm (addDepUpd token))

/-- DAGBuilder.add_attribute: the reserved key type resolves the node kind
(via DAGNodeType(value)); any other key is stored in attrs. -/
def add_attribute (st : Registry) (nm key value : String) : Except String Registry := do
  let st1 ← get_or_create_node st nm .Unknown
  if key = "type" then
    match DAGNodeType.ofString value with
    | some k => pure (updateNode st1 nm (setTypeUpd k))
    | none => .error "ValueError"
  else
    pure (updateNode st1 nm (setAttrUpd key value))

/-- Loop body of DAGBuilder.add_blockchain over the index range. -/
def add_blockchain_go (pfx : String) : Registry → Option String → List Nat →
    Except String Registry
  | st, _, [] => .ok st
  | st, prev, i :: rest => do
    let nm := pfx ++ toString i
    let st1 ← get_or_create_node st nm .Block
    let st2 ← match prev with
      | none => pure st1
      | some p => add_parent_edge st1 nm p
    add_blockchain_go pfx st2 (some nm) rest

/-- DAGBuilder.add_blockchain: a chain of block-kind nodes named
pfx&lt;i&gt; for i in range(firstIndex, lastIndex + 1), each parented to
its predecessor, the first one to firstParent when given. -/
def add_blockchain (st : Registry) (pfx : String) (firstParent : Option String)
    (firstIndex lastIndex : Nat) : Except String Registry :=
  add_blockchain_go pfx st firstParent (List.range' firstIndex (lastIndex + 1 - firstIndex))

/-- The six token shapes produced by the external tokenizer (the match in
DAGBuilder.parse_tokens; the tokenizer module itself is not under src/). -/
inductive Token where
  | parent (f t : String)
  | spend (f t : String) (txoutIndex : Nat)
  | attr (nm key value : String)
  | orderBefore (f t : String)
  | output (nm : String) (index amount : Nat) (token : String)
      (attrs : List (String × String))
  | blockchain (pfx : String) (firstParent : Option String) (firstIndex lastIndex : Nat)

/-- DAGBuilder.parse_tokens: dispatch each token to the recording
operation it names. -/
def parse_tokens (st : Registry) : List Token → Except String Registry
  | [] => .ok st
  | tk :: rest => do
    let st' ← (match tk with
      | .parent f t => add_parent_edge st f t
      | .spend f t i => add_spending_edge st f t i
      | .attr nm k v => add_attribute st nm k v
      | .orderBefore f t => add_deps st f t
      | .output nm i a tok ats => set_output st nm i a tok ats
      | .blockchain p fp b e => add_blockchain st p fp b e)
    parse_tokens st' rest

/-- Modelled from the spec: DAGNode.get_all_dependencies (the types module
is not under src/). The spec defines a node's full dependency set as the
union of parents, input sources, deps and output token names; set_output
records every output token other than the native unit HTR into deps, and
the native unit itself can never be a dependency (the spec's required
end-to-end scenario sorts a node carrying an HTR output although no HTR
node exists), so the dependency iterator yields parents, input sources
and deps. -/
def get_all_dependencies (n : DAGNode) : List String :=
  n.parents ++ n.inputs.map DAGInput.src ++ n.deps

/-- set(node.get_all_dependencies()) in topological_sorting. -/
def depsSet (n : DAGNode) : List String := (get_all_dependencies n).dedup

/-- The full dependency set exactly as the specification words it,
including the token name of every set output slot; used to test the
specification's dependency-order claim against the code. -/
def fullDepSetClaim (n : DAGNode) : List String :=
  n.parents ++ n.inputs.map DAGInput.src ++ n.deps ++
    (n.outputs.filterMap id).map DAGOutput.token

/-- rev_deps in topological_sorting: the nodes that depend on x. Python
iterates a hash set here; the embedding fixes registry order, a sound
determinization of the in-process iteration order. -/
def revDeps (st : Registry) (x : String) : List String :=
  (st.filter (fun n => decide (x ∈ depsSet n))).map (·.name)

/-- The direct_deps working map of topological_sorting. -/
abbrev DDMap := List (String × List String)

/-- direct_deps lookup. -/
def ddFind (dd : DDMap) (k : String) : Option (List String) :=
  (dd.find? (fun p => decide (p.1 = k))).map (·.2)

/-- direct_deps[k].remove(nm). -/
def ddRemove (dd : DDMap) (k nm : String) : DDMap :=
  dd.map (fun p => if p.1 = k then (p.1, p.2.filter (fun y => decide (y ≠ nm))) else p)

/-- del direct_deps[k]. -/
def ddErase (dd : DDMap) (k : String) : DDMap :=
  dd.filter (fun p => decide (p.1 ≠ k))

/-- Outcome of the sort: the emitted name sequence, or the fatal
CyclicDependency carrying the names emitted before the failure. -/
inductive SortResult where
  | ok (emitted : List String)
  | cyclicDependency (emitted : List String)
deriving DecidableEq, Repr

/-- The inner for-loop of topological_sorting over rev_deps[name]:
remove the popped name from each dependent's remaining set, moving
dependents whose set empties into the candidate pool. -/
def processDeps (nm : String) : List String → DDMap → List String → DDMap × List String
  | [], dd, cands => (dd, cands)
  | d :: rest, dd, cands =>
    let dd1 := ddRemove dd d nm
    match ddFind dd1 d with
    | some [] => processDeps nm rest (ddErase dd1 d) (cands ++ [d])
    | _ => processDeps nm rest dd1 cands

/-- The main for-loop of topological_sorting: len(nodes) iterations, each
popping the last candidate (list.pop), or failing with CyclicDependency
when the pool is empty. -/
def sortLoop (st : Registry) : Nat → DDMap → List String → List String → SortResult
  | 0, _, _, emitted => .ok emitted
  | fuel + 1, dd, cands, emitted =>
    match cands.getLast? with
    | none => .cyclicDependency emitted
    | some nm =>
      let pr := processDeps nm (revDeps st nm) dd cands.dropLast
      sortLoop st fuel pr.1 pr.2 (emitted ++ [nm])

/-- DAGBuilder.topological_sorting, summarised as the sequence of emitted
node names (the generator yields the registered node of each name). -/
def topological_sorting (st : Registry) : SortResult :=
  sortLoop st st.length
    (st.map (fun n => (n.name, depsSet n)))
    ((st.filter (fun n => (depsSet n).isEmpty)).map (·.name))
    []

/-- Invariant of the sort loop: emitted and candidate names are registered
and duplicate-free, candidates have all of their dependencies emitted,
emitted names have all of their dependencies strictly earlier, and the
remaining-dependency map holds exactly the not-yet-emitted dependencies of
every node that is neither emitted nor a candidate. -/
def SortInv (R : Registry) (dd : DDMap) (cands emitted : List String) : Prop :=
  (∀ x ∈ emitted, x ∈ names R) ∧
  (∀ x ∈ cands, x ∈ names R) ∧
  emitted.Nodup ∧
  cands.Nodup ∧
  (∀ x ∈ cands, x ∉ emitted) ∧
  (∀ c ∈ cands, ∀ nc, findNode R c = some nc → ∀ x ∈ depsSet nc, x ∈ emitted) ∧
  (∀ i w, emitted[i]? = some w → ∀ nw, findNode R w = some nw →
    ∀ x ∈ depsSet nw, x ∈ emitted.take i) ∧
  (∀ w, w ∉ emitted → w ∉ cands → ∀ nw, findNode R w = some nw →
    ddFind dd w = some ((depsSet nw).filter (fun x => decide (x ∉ emitted))))

/-! Basic lemmas about the registry embedding. -/

theorem mem_insertSet {α : Type} [DecidableEq α] {l : List α} {a b : α} :
    a ∈ insertSet l b ↔ a = b ∨ a ∈ l := by
  unfold insertSet
  split
  · constructor
    · exact fun h => Or.inr h
    · rintro (rfl | h)
      · assumption
      · exact h
  · simp [or_comm]

theorem insertSet_eq_of_mem {α : Type} [DecidableEq α] {l : List α} {a : α}
    (h : a ∈ l) : insertSet l a = l := by
  simp [insertSet, h]

theorem self_mem_insertSet {α : Type} [DecidableEq α] (l : List α) (a : α) :
    a ∈ insertSet l a := by
  simp [mem_insertSet]

theorem findNode_eq_some {st : Registry} {nm : String} {n : DAGNode}
    (h : findNode st nm = some n) : n ∈ st ∧ n.name = nm := by
  refine ⟨List.mem_of_find?_eq_some h, ?_⟩
  have := List.find?_some h
  simpa using this

theorem findNode_isSome_iff {st : Registry} {nm : String} :
    (findNode st nm).isSome ↔ nm ∈ names st := by
  induction st with
  | nil => simp [findNode, names]
  | cons hd tl ih =>
    by_cases h : hd.name = nm
    · rw [findNode, List.find?_cons_of_pos _ (by simp [h])]
      simp [names, h]
    · rw [findNode, List.find?_cons_of_neg _ (by simp [h])]
      have hm : nm ∈ names (hd :: tl) ↔ nm ∈ names tl := by
        simp only [names, List.map_cons, List.mem_cons]
        constructor
        · rintro (he | hmm)
          · exact absurd he.symm h
          · exact hmm
        · exact Or.inr
      rw [hm, ← ih]
      rfl

theorem findNode_eq_none_iff {st : Registry} {nm : String} :
    findNode st nm = none ↔ nm ∉ names st := by
  rw [← findNode_isSome_iff]
  cases h : findNode st nm <;> simp [h]

theorem name_unique {st : Registry} (hwf : (names st).Nodup) {n₁ n₂ : DAGNode}
    (h₁ : n₁ ∈ st) (h₂ : n₂ ∈ st) (h : n₁.name = n₂.name) : n₁ = n₂ := by
  induction st with
  | nil => cases h₁
  | cons hd tl ih =>
    rw [names, List.map_cons, List.nodup_cons] at hwf
    rcases List.mem_cons.mp h₁ with rfl | h₁' <;>
      rcases List.mem_cons.mp h₂ with rfl | h₂'
    · rfl
    · exact absurd (h ▸ List.mem_map_of_mem DAGNode.name h₂') hwf.1
    · exact absurd (h ▸ List.mem_map_of_mem DAGNode.name h₁') hwf.1
    · exact ih hwf.2 h₁' h₂'

theorem findNode_mem {st : Registry} (hwf : (names st).Nodup) {n : DAGNode}
    (h : n ∈ st) : findNode st n.name = some n := by
  have hs : (findNode st n.name).isSome :=
    findNode_isSome_iff.mpr (List.mem_map_of_mem DAGNode.name h)
  cases hf : findNode st n.name with
  | none => rw [hf] at hs; cases hs
  | some m =>
    rcases findNode_eq_some hf with ⟨hm, hname⟩
    rw [name_unique hwf hm h hname]

theorem names_updateNode {st : Registry} {nm : String} {f : DAGNode → DAGNode}
    (hf : ∀ n, (f n).name = n.name) : names (updateNode st nm f) = names st := by
  unfold names updateNode
  rw [List.map_map]
  refine List.map_congr_left (fun n _ => ?_)
  by_cases h : n.name = nm <;> simp [h, hf]

theorem find?_name_map {st : Registry} {g : DAGNode → DAGNode}
    (hg : ∀ n, (g n).name = n.name) (w : String) :
    (st.map g).find? (fun n => decide (n.name = w)) =
      (st.find? (fun n => decide (n.name = w))).map g := by
  induction st with
  | nil => rfl
  | cons hd tl ih =>
    by_cases h : hd.name = w
    · rw [List.map_cons, List.find?_cons_of_pos _ (by simp [hg, h]),
        List.find?_cons_of_pos _ (by simp [h])]
      rfl
    · rw [List.map_cons, List.find?_cons_of_neg _ (by simp [hg, h]),
        List.find?_cons_of_neg _ (by simp [h]), ih]

theorem findNode_updateNode {st : Registry} {nm w : String} {f : DAGNode → DAGNode}
    (hf : ∀ n, (f n).name = n.name) :
    findNode (updateNode st nm f) w =
      if w = nm then (findNode st nm).map f else findNode st w := by
  have hg : ∀ n, ((fun n => if n.name = nm then f n else n) n).name = n.name := by
    intro n
    by_cases h : n.name = nm <;> simp [h, hf]
  simp only [findNode, updateNode]
  rw [find?_name_map hg w]
  by_cases hwn : w = nm
  · subst hwn
    rw [if_pos rfl]
    cases hfind : st.find? (fun n => decide (n.name = w)) with
    | none => rfl
    | some m =>
      have hm : m.name = w := by simpa using List.find?_some hfind
      simp [hm]
  · rw [if_neg hwn]
    cases hfind : st.find? (fun n => decide (n.name = w)) with
    | none => rfl
    | some m =>
      have hm : m.name = w := by simpa using List.find?_some hfind
      have : ¬ m.name = nm := fun hc => hwn (hm.symm.trans hc)
      simp [this]

theorem findNode_append_one {st : Registry} {nd : DAGNode} {w : String} :
    findNode (st ++ [nd]) w =
      ((findNode st w).orElse (fun _ => if nd.name = w then some nd else none)) := by
  induction st with
  | nil =>
    by_cases h : nd.name = w
    · simp only [List.nil_append, findNode]
      rw [List.find?_cons_of_pos _ (by simp [h])]
      simp [h, Option.orElse]
    · simp only [List.nil_append, findNode]
      rw [List.find?_cons_of_neg _ (by simp [h])]
      simp [h, Option.orElse]
  | cons hd tl ih =>
    by_cases h : hd.name = w
    · simp only [List.cons_append, findNode]
      rw [List.find?_cons_of_pos _ (by simp [h]), List.find?_cons_of_pos _ (by simp [h])]
      rfl
    · simp only [List.cons_append, findNode]
      rw [List.find?_cons_of_neg _ (by simp [h]), List.find?_cons_of_neg _ (by simp [h])]
      exact ih

theorem updateNode_eq_self {st : Registry} (hwf : (names st).Nodup) {nm : String}
    {n : DAGNode} {f : DAGNode → DAGNode} (h : findNode st nm = some n)
    (hfn : f n = n) : updateNode st nm f = st := by
  rcases findNode_eq_some h with ⟨hmem, hname⟩
  unfold updateNode
  have hmap : ∀ m ∈ st, (if m.name = nm then f m else m) = m := by
    intro m hm
    by_cases hmn : m.name = nm
    · have hmn2 : m = n := name_unique hwf hm hmem (hmn.trans hname.symm)
      rw [if_pos hmn, hmn2, hfn]
    · rw [if_neg hmn]
  calc st.map (fun m => if m.name = nm then f m else m) = st.map id :=
        List.map_congr_left (fun m hm => by simpa using hmap m hm)
    _ = st := List.map_id st

/-! Lemmas about the sort's working structures. -/

theorem mem_depsSet {n : DAGNode} {x : String} :
    x ∈ depsSet n ↔ x ∈ n.parents ∨ x ∈ n.inputs.map DAGInput.src ∨ x ∈ n.deps := by
  simp [depsSet, get_all_dependencies, List.mem_dedup, List.mem_append, or_assoc]

theorem ddFind_init {st : Registry} {w : String} :
    ddFind (st.map (fun n => (n.name, depsSet n))) w = (findNode st w).map depsSet := by
  induction st with
  | nil => rfl
  | cons hd tl ih =>
    by_cases h : hd.name = w
    · simp only [ddFind, findNode, List.map_cons]
      rw [List.find?_cons_of_pos _ (by simp [h]), List.find?_cons_of_pos _ (by simp [h])]
      rfl
    · simp only [ddFind, findNode, List.map_cons] at *
      rw [List.find?_cons_of_neg _ (by simp [h]), List.find?_cons_of_neg _ (by simp [h])]
      exact ih

theorem find?_key_map {dd : DDMap} {g : String × List String → String × List String}
    (hg : ∀ p, (g p).1 = p.1) (w : String) :
    (dd.map g).find? (fun p => decide (p.1 = w)) =
      (dd.find? (fun p => decide (p.1 = w))).map g := by
  induction dd with
  | nil => rfl
  | cons hd tl ih =>
    by_cases h : hd.1 = w
    · rw [List.map_cons, List.find?_cons_of_pos _ (by simp [hg, h]),
        List.find?_cons_of_pos _ (by simp [h])]
      rfl
    · rw [List.map_cons, List.find?_cons_of_neg _ (by simp [hg, h]),
        List.find?_cons_of_neg _ (by simp [h]), ih]

theorem ddFind_ddRemove {dd : DDMap} {k nm w : String} :
    ddFind (ddRemove dd k nm) w =
      if w = k then (ddFind dd w).map (fun v => v.filter (fun y => decide (y ≠ nm)))
      else ddFind dd w := by
  have hg : ∀ p : String × List String,
      ((fun p => if p.1 = k then (p.1, p.2.filter (fun y => decide (y ≠ nm))) else p) p).1 = p.1 := by
    intro p
    by_cases h : p.1 = k <;> simp [h]
  simp only [ddFind, ddRemove]
  rw [find?_key_map hg w]
  by_cases hwk : w = k
  · subst hwk
    rw [if_pos rfl]
    cases hfind : dd.find? (fun p => decide (p.1 = w)) with
    | none => rfl
    | some p =>
      have hp : p.1 = w := by simpa using List.find?_some hfind
      simp [hp]
  · rw [if_neg hwk]
    cases hfind : dd.find? (fun p => decide (p.1 = w)) with
    | none => rfl
    | some p =>
      have hp : p.1 = w := by simpa using List.find?_some hfind
      have : ¬ p.1 = k := fun hc => hwk (hp.symm.trans hc)
      simp [this]

theorem find?_key_filter_ne {dd : DDMap} {k w : String} (hne : ¬ w = k) :
    (dd.filter (fun p => decide (p.1 ≠ k))).find? (fun p => decide (p.1 = w)) =
      dd.find? (fun p => decide (p.1 = w)) := by
  induction dd with
  | nil => rfl
  | cons hd tl ih =>
    by_cases hhk : hd.1 = k
    · rw [List.filter_cons_of_neg (by simp [hhk])]
      have : ¬ hd.1 = w := fun hc => hne ((hc.symm.trans hhk))
      rw [List.find?_cons_of_neg _ (by simp [this]), ih]
    · rw [List.filter_cons_of_pos (by simp [hhk])]
      by_cases hhw : hd.1 = w
      · rw [List.find?_cons_of_pos _ (by simp [hhw]), List.find?_cons_of_pos _ (by simp [hhw])]
      · rw [List.find?_cons_of_neg _ (by simp [hhw]), List.find?_cons_of_neg _ (by simp [hhw]), ih]

theorem ddFind_ddErase {dd : DDMap} {k w : String} :
    ddFind (ddErase dd k) w = if w = k then none else ddFind dd w := by
  simp only [ddFind, ddErase]
  by_cases hwk : w = k
  · subst hwk
    rw [if_pos rfl]
    have : (dd.filter (fun p => decide (p.1 ≠ w))).find? (fun p => decide (p.1 = w)) = none := by
      rw [List.find?_eq_none]
      intro p hp
      have := (List.mem_filter.mp hp).2
      simpa using this
    rw [this]
    rfl
  · rw [if_neg hwk, find?_key_filter_ne hwk]

theorem mem_revDeps {st : Registry} (hwf : (names st).Nodup) {nm d : String} :
    d ∈ revDeps st nm ↔ ∃ nd, findNode st d = some nd ∧ nm ∈ depsSet nd := by
  unfold revDeps
  constructor
  · intro h
    rcases List.mem_map.mp h with ⟨nd, hmem, hname⟩
    rcases List.mem_filter.mp hmem with ⟨hnd, hdep⟩
    refine ⟨nd, ?_, by simpa using hdep⟩
    rw [← hname]
    exact findNode_mem hwf hnd
  · rintro ⟨nd, hfind, hdep⟩
    rcases findNode_eq_some hfind with ⟨hmem, hname⟩
    rw [← hname]
    exact List.mem_map_of_mem _ (List.mem_filter.mpr ⟨hmem, by simpa using hdep⟩)

theorem revDeps_nodup {st : Registry} (hwf : (names st).Nodup) (nm : String) :
    (revDeps st nm).Nodup := by
  unfold revDeps
  have hsub : List.Sublist
      ((st.filter (fun n => decide (nm ∈ depsSet n))).map (·.name)) (names st) :=
    (List.filter_sublist st).map _
  exact List.Nodup.sublist hsub hwf

theorem revDeps_sub_names {st : Registry} {nm d : String} (h : d ∈ revDeps st nm) :
    d ∈ names st := by
  unfold revDeps at h
  rcases List.mem_map.mp h with ⟨nd, hmem, hname⟩
  rw [← hname]
  exact List.mem_map_of_mem _ (List.mem_of_mem_filter hmem)

/-! Reduction helpers for the Except embedding of fallible operations. -/

theorem exceptBindOk {α β ε : Type} (a : α) (f : α → Except ε β) :
    (do let x ← Except.ok a; f x) = f a := rfl

theorem exceptBindErr {α β ε : Type} (e : ε) (f : α → Except ε β) :
    (do let x ← (Except.error e : Except ε α); f x) = (Except.error e : Except ε β) := rfl

theorem exceptBind_eq_ok {α β ε : Type} {x : Except ε α} {f : α → Except ε β} {b : β}
    (h : (do let a ← x; f a) = .ok b) : ∃ a, x = .ok a ∧ f a = .ok b := by
  cases x with
  | error e =>
    rw [exceptBindErr] at h
    exact Except.noConfusion h
  | ok a => exact ⟨a, rfl, h⟩

/-! Claim theorems. -/

/-- C5: _get_or_create_node returns the node registered under the name if
one exists, otherwise creates and registers a fresh node with the default
kind; an existing unresolved kind is upgraded to the default kind; an
existing concrete kind conflicting with a concrete default kind fails with
KindMismatch, while an unresolved or equal default kind leaves the
registry unchanged. -/
theorem get_or_create_node_spec (st : Registry) (nm : String) (k : DAGNodeType) :
    (findNode st nm = none →
      get_or_create_node st nm k = .ok (st ++ [⟨nm, k, [], [], [], [], []⟩])) ∧
    (∀ n, findNode st nm = some n → n.type = .Unknown →
      get_or_create_node st nm k = .ok (updateNode st nm (setTypeUpd k))) ∧
    (∀ n, findNode st nm = some n → n.type ≠ .Unknown → (k = .Unknown ∨ k = n.type) →
      get_or_create_node st nm k = .ok st) ∧
    (∀ n, findNode st nm = some n → n.type ≠ .Unknown → k ≠ .Unknown → k ≠ n.type →
      get_or_create_node st nm k = .error "KindMismatch") := by
  refine ⟨?_, ?_, ?_, ?_⟩
  · intro h
    simp [get_or_create_node, h]
  · intro n h ht
    simp [get_or_create_node, h, ht]
  · intro n h ht hk
    rcases hk with hk | hk
    · simp [get_or_create_node, h, ht, hk]
    · have hkU : ¬ k = DAGNodeType.Unknown := fun hc => ht (hk.symm.trans hc)
      simp [get_or_create_node, h, ht, hkU, hk.symm]
  · intro n h ht hk hkn
    have : ¬ n.type = k := fun hc => hkn (hc.symm)
    simp [get_or_create_node, h, ht, hk, this]

/-- C5 witness: on a registry holding a concrete Block node, requesting
the same name with default kind Token hits the KindMismatch branch. -/
theorem get_or_create_node_spec_witness :
    get_or_create_node [⟨"a", .Block, [], [], [], [], []⟩] "a" .Token =
      .error "KindMismatch" :=
  (get_or_create_node_spec [⟨"a", .Block, [], [], [], [], []⟩] "a" .Token).2.2.2
    ⟨"a", .Block, [], [], [], [], []⟩ rfl (by decide) (by decide) (by decide)

/-- C8: add_blockchain with prefix b, no first parent and range 0..2
creates exactly b0, b1, b2, all of kind Block, with b1 parented to b0 and
b2 parented to b1 and b0 left parentless; a concrete first parent
additionally parents the first chain node to it. -/
theorem add_blockchain_chain :
    add_blockchain [] "b" none 0 2 = Except.ok
      [⟨"b0", .Block, [], [], [], [], []⟩,
       ⟨"b1", .Block, ["b0"], [], [], [], []⟩,
       ⟨"b2", .Block, ["b1"], [], [], [], []⟩] ∧
    add_blockchain [] "b" (some "g") 0 2 = Except.ok
      [⟨"b0", .Block, ["g"], [], [], [], []⟩,
       ⟨"g", .Unknown, [], [], [], [], []⟩,
       ⟨"b1", .Block, ["b0"], [], [], [], []⟩,
       ⟨"b2", .Block, ["b1"], [], [], [], []⟩] :=
  ⟨rfl, rfl⟩

/-- C7: parsing a fixed token stream from a fresh builder is a function of
the stream alone, so two successful parses agree and the topological sort
emits the same sequence for both. -/
theorem parse_sort_deterministic (ts : List Token) (b₁ b₂ : Registry)
    (h₁ : parse_tokens [] ts = .ok b₁) (h₂ : parse_tokens [] ts = .ok b₂) :
    b₁ = b₂ ∧ topological_sorting b₁ = topological_sorting b₂ := by
  rw [h₁] at h₂
  injection h₂ with h
  exact ⟨h, by rw [h]⟩

/-- C7 witness: the one-token stream declaring an ordering dependency
parses to the same registry twice, with identical sort output. -/
theorem parse_sort_deterministic_witness :
    ([⟨"a", .Unknown, [], [], [], ["b"], []⟩, ⟨"b", .Unknown, [], [], [], [], []⟩]
        : Registry) =
      [⟨"a", .Unknown, [], [], [], ["b"], []⟩, ⟨"b", .Unknown, [], [], [], [], []⟩] ∧
    topological_sorting
        [⟨"a", .Unknown, [], [], [], ["b"], []⟩, ⟨"b", .Unknown, [], [], [], [], []⟩] =
      topological_sorting
        [⟨"a", .Unknown, [], [], [], ["b"], []⟩, ⟨"b", .Unknown, [], [], [], [], []⟩] :=
  parse_sort_deterministic [Token.orderBefore "a" "b"]
    [⟨"a", .Unknown, [], [], [], ["b"], []⟩, ⟨"b", .Unknown, [], [], [], [], []⟩]
    [⟨"a", .Unknown, [], [], [], ["b"], []⟩, ⟨"b", .Unknown, [], [], [], [], []⟩]
    rfl rfl

/-- C3 counterexample: setting the reserved type key to block and then to
token on the same node succeeds (no KindMismatch is raised) and the node's
kind ends up Token, so the kind did change after having been resolved. -/
theorem add_attribute_kind_counterexample :
    add_attribute [] "b1" "type" "block" =
      Except.ok [⟨"b1", .Block, [], [], [], [], []⟩] ∧
    add_attribute [⟨"b1", .Block, [], [], [], [], []⟩] "b1" "type" "token" =
      Except.ok [⟨"b1", .Token, [], [], [], [], []⟩] ∧
    DAGNodeType.Token ≠ DAGNodeType.Block :=
  ⟨rfl, rfl, by decide⟩

/-- C3 amended: add_attribute with the reserved type key overwrites the
node's kind unconditionally — a second concrete kind succeeds and
replaces the first, as the block-then-token sequence shows. -/
theorem add_attribute_type_overwrites :
    (∀ st nm v k st', DAGNodeType.ofString v = some k →
      add_attribute st nm "type" v = .ok st' →
      ∀ n', findNode st' nm = some n' → n'.type = k) ∧
    (add_attribute [] "b1" "type" "block" =
        Except.ok [⟨"b1", .Block, [], [], [], [], []⟩] ∧
      add_attribute [⟨"b1", .Block, [], [], [], [], []⟩] "b1" "type" "token" =
        Except.ok [⟨"b1", .Token, [], [], [], [], []⟩]) := by
  refine ⟨?_, rfl, rfl⟩
  intro st nm v k st' hv hok n' hfind
  unfold add_attribute at hok
  rcases exceptBind_eq_ok hok with ⟨st1, hst1, hrest⟩
  rw [if_pos rfl, hv] at hrest
  have hst' : updateNode st1 nm (setTypeUpd k) = st' := Except.ok.inj hrest
  rw [← hst'] at hfind
  have hg : ∀ x : DAGNode, (setTypeUpd k x).name = x.name := fun x => rfl
  rw [findNode_updateNode hg, if_pos rfl] at hfind
  cases hf1 : findNode st1 nm with
  | none => rw [hf1] at hfind; cases hfind
  | some n1 =>
    rw [hf1] at hfind
    injection hfind with h
    rw [← h]
    rfl

/-- C2: declaring the ordering dependencies A-before-B and then B-before-A
on a fresh builder makes the topological sort fail with CyclicDependency
while emitting no name at all (no partial sequence). -/
theorem cyclic_deps_fail_no_emission (a b : String) (st₁ st₂ : Registry)
    (h₁ : add_deps [] a b = .ok st₁) (h₂ : add_deps st₁ b a = .ok st₂) :
    topological_sorting st₂ = SortResult.cyclicDependency [] := by
  by_cases hab : a = b
  · subst hab
    have e₁ : add_deps ([] : Registry) a a =
        Except.ok [⟨a, .Unknown, [], [], [], [a], []⟩] := by
      simp [add_deps, get_or_create_node, findNode, updateNode, insertSet, exceptBindOk,
        List.find?, setTypeUpd, addDepUpd]
    rw [e₁] at h₁
    injection h₁ with h₁'
    subst h₁'
    have e₂ : add_deps [(⟨a, .Unknown, [], [], [], [a], []⟩ : DAGNode)] a a =
        Except.ok [⟨a, .Unknown, [], [], [], [a], []⟩] := by
      simp [add_deps, get_or_create_node, findNode, updateNode, insertSet, exceptBindOk,
        List.find?, setTypeUpd, addDepUpd]
    rw [e₂] at h₂
    injection h₂ with h₂'
    subst h₂'
    rfl
  · have e₁ : add_deps ([] : Registry) a b =
        Except.ok [⟨a, .Unknown, [], [], [], [b], []⟩, ⟨b, .Unknown, [], [], [], [], []⟩] := by
      simp [add_deps, get_or_create_node, findNode, updateNode, insertSet, exceptBindOk,
        List.find?, setTypeUpd, addDepUpd, hab, Ne.symm hab]
    rw [e₁] at h₁
    injection h₁ with h₁'
    subst h₁'
    have e₂ : add_deps
        [(⟨a, .Unknown, [], [], [], [b], []⟩ : DAGNode), ⟨b, .Unknown, [], [], [], [], []⟩] b a =
        Except.ok [⟨a, .Unknown, [], [], [], [b], []⟩, ⟨b, .Unknown, [], [], [], [a], []⟩] := by
      simp [add_deps, get_or_create_node, findNode, updateNode, insertSet, exceptBindOk,
        List.find?, setTypeUpd, addDepUpd, hab, Ne.symm hab]
    rw [e₂] at h₂
    injection h₂ with h₂'
    subst h₂'
    rfl

/-- C2 witness: the concrete names A and B exhibit the cycle failure with
an empty emitted sequence. -/
theorem cyclic_deps_fail_no_emission_witness :
    topological_sorting
      [⟨"A", .Unknown, [], [], [], ["B"], []⟩, ⟨"B", .Unknown, [], [], [], ["A"], []⟩] =
      SortResult.cyclicDependency [] :=
  cyclic_deps_fail_no_emission "A" "B"
    [⟨"A", .Unknown, [], [], [], ["B"], []⟩, ⟨"B", .Unknown, [], [], [], [], []⟩]
    [⟨"A", .Unknown, [], [], [], ["B"], []⟩, ⟨"B", .Unknown, [], [], [], ["A"], []⟩]
    rfl rfl

/-- C3 amended witness: setting type to token on a fresh b1 leaves the
registered node with kind Token. -/
theorem add_attribute_type_overwrites_witness :
    DAGNode.type ⟨"b1", .Token, [], [], [], [], []⟩ = DAGNodeType.Token :=
  add_attribute_type_overwrites.1 [] "b1" "token" .Token
    [⟨"b1", .Token, [], [], [], [], []⟩] rfl rfl ⟨"b1", .Token, [], [], [], [], []⟩ rfl


theorem gocn_unknown_cases {st : Registry} {n : String} {st1 : Registry}
    (h : get_or_create_node st n .Unknown = .ok st1) :
    (findNode st n = none ∧ st1 = st ++ [⟨n, .Unknown, [], [], [], [], []⟩]) ∨
    (∃ nd, findNode st n = some nd ∧
      ((nd.type = .Unknown ∧ st1 = updateNode st n (setTypeUpd .Unknown)) ∨
       (nd.type ≠ .Unknown ∧ st1 = st))) := by
  unfold get_or_create_node at h
  split at h
  next hf =>
    exact Or.inl ⟨hf, (Except.ok.inj h).symm⟩
  next nd hf =>
    by_cases ht : nd.type = .Unknown
    · rw [if_pos ht] at h
      exact Or.inr ⟨nd, hf, Or.inl ⟨ht, (Except.ok.inj h).symm⟩⟩
    · rw [if_neg ht, if_pos rfl] at h
      exact Or.inr ⟨nd, hf, Or.inr ⟨ht, (Except.ok.inj h).symm⟩⟩

theorem gocn_unknown_ok (st : Registry) (n : String) :
    ∃ st1, get_or_create_node st n .Unknown = .ok st1 := by
  unfold get_or_create_node
  split
  · exact ⟨_, rfl⟩
  next nd _ =>
    by_cases ht : nd.type = .Unknown
    · rw [if_pos ht]; exact ⟨_, rfl⟩
    · rw [if_neg ht, if_pos rfl]; exact ⟨_, rfl⟩

theorem gocn_unknown_names {st : Registry} {n : String} {st1 : Registry}
    (h : get_or_create_node st n .Unknown = .ok st1) :
    (findNode st n = none ∧ names st1 = names st ++ [n]) ∨
    ((findNode st n).isSome ∧ names st1 = names st) := by
  rcases gocn_unknown_cases h with ⟨hf, rfl⟩ | ⟨nd, hf, hcase⟩
  · refine Or.inl ⟨hf, ?_⟩
    simp [names]
  · refine Or.inr ⟨by rw [hf]; rfl, ?_⟩
    rcases hcase with ⟨_, rfl⟩ | ⟨_, rfl⟩
    · exact names_updateNode (fun m => rfl)
    · rfl

theorem gocn_unknown_find_other {st : Registry} {n : String} {st1 : Registry}
    (h : get_or_create_node st n .Unknown = .ok st1) {m : String} (hm : m ≠ n) :
    findNode st1 m = findNode st m := by
  rcases gocn_unknown_cases h with ⟨hf, rfl⟩ | ⟨nd, hf, hcase⟩
  · rw [findNode_append_one]
    cases hfm : findNode st m with
    | some x => rfl
    | none =>
      simp only [Option.orElse]
      rw [if_neg (fun hc : n = m => hm hc.symm)]
  · rcases hcase with ⟨_, rfl⟩ | ⟨_, rfl⟩
    · have hg : ∀ x : DAGNode, (setTypeUpd DAGNodeType.Unknown x).name = x.name :=
        fun x => rfl
      rw [findNode_updateNode hg, if_neg hm]
    · rfl

theorem findNode_append_self_of_none {st : Registry} {m : String} {nd : DAGNode}
    (hname : nd.name = m) (h : findNode st m = none) :
    findNode (st ++ [nd]) m = some nd := by
  rw [findNode_append_one, h]
  simp [Option.orElse, hname]

/-- C6: an output denominated in the non-native token TK1 registers a
token-kind node named TK1 and makes it a dependency of the declaring node,
while an output denominated in the native unit HTR registers no node
beyond the declaring one and changes no node's deps. -/
theorem set_output_token_dep :
    (set_output [] "tx1" 0 10 "TK1" [] = Except.ok
        [⟨"tx1", .Unknown, [], [], [some ⟨10, "TK1", []⟩], ["TK1"], []⟩,
         ⟨"TK1", .Token, [], [], [], [], []⟩] ∧
      "TK1" ∈ depsSet ⟨"tx1", .Unknown, [], [], [some ⟨10, "TK1", []⟩], ["TK1"], []⟩) ∧
    (∀ st n i a ats st', set_output st n i a "HTR" ats = .ok st' →
      (∀ m, (findNode st' m).isSome ↔ ((findNode st m).isSome ∨ m = n)) ∧
      (∀ m nm nm', findNode st m = some nm → findNode st' m = some nm' →
        nm'.deps = nm.deps) ∧
      (findNode st n = none → ∀ nn', findNode st' n = some nn' → nn'.deps = [])) := by
  refine ⟨⟨rfl, by decide⟩, ?_⟩
  intro st n i a ats st' hok
  unfold set_output at hok
  rcases exceptBind_eq_ok hok with ⟨st1, hst1, hrest⟩
  rw [if_pos rfl] at hrest
  have hst' : updateNode st1 n (setOutputUpd i a "HTR" ats) = st' := Except.ok.inj hrest
  have hg : ∀ x : DAGNode, (setOutputUpd i a "HTR" ats x).name = x.name := fun x => rfl
  refine ⟨?_, ?_, ?_⟩
  · intro m
    rw [← hst', findNode_isSome_iff, names_updateNode hg]
    rcases gocn_unknown_names hst1 with ⟨hf, hn⟩ | ⟨hf, hn⟩
    · rw [hn]
      simp only [List.mem_append, List.mem_singleton]
      rw [← findNode_isSome_iff]
    · rw [hn, ← findNode_isSome_iff]
      constructor
      · exact Or.inl
      · rintro (hmem | rfl)
        · exact hmem
        · exact hf
  · intro m nm nm' hfm hfm'
    rw [← hst', findNode_updateNode hg] at hfm'
    by_cases hmn : m = n
    · subst hmn
      rw [if_pos rfl] at hfm'
      rcases gocn_unknown_cases hst1 with ⟨hf, rfl⟩ | ⟨nd, hf, hcase⟩
      · rw [hfm] at hf
        cases hf
      · rw [hfm] at hf
        injection hf with hf
        subst hf
        rcases hcase with ⟨ht, rfl⟩ | ⟨ht, rfl⟩
        · have hgU : ∀ x : DAGNode, (setTypeUpd DAGNodeType.Unknown x).name = x.name :=
            fun x => rfl
          rw [findNode_updateNode hgU, if_pos rfl, hfm] at hfm'
          injection hfm' with h'
          rw [← h']
          rfl
        · rw [hfm] at hfm'
          injection hfm' with h'
          rw [← h']
          rfl
    · rw [if_neg hmn, gocn_unknown_find_other hst1 hmn, hfm] at hfm'
      injection hfm' with h'
      rw [← h']
  · intro hnone nn' hfn
    rw [← hst', findNode_updateNode hg, if_pos rfl] at hfn
    rcases gocn_unknown_cases hst1 with ⟨hf, rfl⟩ | ⟨nd, hf, _⟩
    · rw [@findNode_append_self_of_none st n ⟨n, .Unknown, [], [], [], [], []⟩ rfl hnone]
        at hfn
      injection hfn with h'
      rw [← h']
      rfl
    · rw [hnone] at hf
      cases hf

/-- C6 witness: the concrete HTR output on a fresh builder registers only
tx1 and leaves its deps empty. -/
theorem set_output_token_dep_witness :
    ((findNode [(⟨"tx1", .Unknown, [], [], [some ⟨100, "HTR", []⟩], [], []⟩ : DAGNode)]
        "tx1").isSome ↔
      ((findNode ([] : Registry) "tx1").isSome ∨ "tx1" = "tx1")) ∧
    DAGNode.deps ⟨"tx1", .Unknown, [], [], [some ⟨100, "HTR", []⟩], [], []⟩ = [] := by
  have h := set_output_token_dep.2 [] "tx1" 0 100 []
    [⟨"tx1", .Unknown, [], [], [some ⟨100, "HTR", []⟩], [], []⟩] rfl
  exact ⟨h.1 "tx1",
    h.2.2 rfl ⟨"tx1", .Unknown, [], [], [some ⟨100, "HTR", []⟩], [], []⟩ rfl⟩

theorem setTypeUpd_eq_self {n : DAGNode} {k : DAGNodeType} (h : n.type = k) :
    setTypeUpd k n = n := by
  unfold setTypeUpd
  cases n
  simp only at h
  rw [← h]

theorem gocn_cases {st : Registry} {n : String} {k : DAGNodeType} {st1 : Registry}
    (h : get_or_create_node st n k = .ok st1) :
    (findNode st n = none ∧ st1 = st ++ [⟨n, k, [], [], [], [], []⟩]) ∨
    (∃ nd, findNode st n = some nd ∧
      ((nd.type = .Unknown ∧ st1 = updateNode st n (setTypeUpd k)) ∨
       (nd.type ≠ .Unknown ∧ (k = .Unknown ∨ nd.type = k) ∧ st1 = st))) := by
  unfold get_or_create_node at h
  split at h
  next hf =>
    exact Or.inl ⟨hf, (Except.ok.inj h).symm⟩
  next nd hf =>
    by_cases ht : nd.type = .Unknown
    · rw [if_pos ht] at h
      exact Or.inr ⟨nd, hf, Or.inl ⟨ht, (Except.ok.inj h).symm⟩⟩
    · rw [if_neg ht] at h
      by_cases hk : k = .Unknown
      · rw [if_pos hk] at h
        exact Or.inr ⟨nd, hf, Or.inr ⟨ht, Or.inl hk, (Except.ok.inj h).symm⟩⟩
      · rw [if_neg hk] at h
        by_cases hek : nd.type = k
        · rw [if_pos hek] at h
          exact Or.inr ⟨nd, hf, Or.inr ⟨ht, Or.inr hek, (Except.ok.inj h).symm⟩⟩
        · rw [if_neg hek] at h
          cases h

theorem gocn_preserves {st : Registry} {n : String} {k : DAGNodeType} {st1 : Registry}
    (h : get_or_create_node st n k = .ok st1) {m : String} {x : DAGNode}
    (hm : findNode st m = some x) :
    ∃ x', findNode st1 m = some x' ∧ x'.name = x.name ∧ x'.parents = x.parents ∧
      x'.inputs = x.inputs ∧ x'.outputs = x.outputs ∧ x'.deps = x.deps ∧
      x'.attrs = x.attrs := by
  rcases gocn_cases h with ⟨hf, rfl⟩ | ⟨nd, hf, hcase⟩
  · refine ⟨x, ?_, rfl, rfl, rfl, rfl, rfl, rfl⟩
    rw [findNode_append_one, hm]
    rfl
  · rcases hcase with ⟨ht, rfl⟩ | ⟨ht, hk, rfl⟩
    · have hg : ∀ y : DAGNode, (setTypeUpd k y).name = y.name := fun y => rfl
      by_cases hmn : m = n
      · subst hmn
        refine ⟨setTypeUpd k x, ?_, rfl, rfl, rfl, rfl, rfl, rfl⟩
        rw [findNode_updateNode hg, if_pos rfl, hm]
        rfl
      · refine ⟨x, ?_, rfl, rfl, rfl, rfl, rfl, rfl⟩
        rw [findNode_updateNode hg, if_neg hmn]
        exact hm
    · exact ⟨x, hm, rfl, rfl, rfl, rfl, rfl, rfl⟩

theorem gocn_self_isSome {st : Registry} {n : String} {k : DAGNodeType} {st1 : Registry}
    (h : get_or_create_node st n k = .ok st1) : (findNode st1 n).isSome := by
  rcases gocn_cases h with ⟨hf, rfl⟩ | ⟨nd, hf, hcase⟩
  · rw [@findNode_append_self_of_none st n ⟨n, k, [], [], [], [], []⟩ rfl hf]
    rfl
  · rcases hcase with ⟨ht, rfl⟩ | ⟨ht, hk, rfl⟩
    · have hg : ∀ y : DAGNode, (setTypeUpd k y).name = y.name := fun y => rfl
      rw [findNode_updateNode hg, if_pos rfl, hf]
      rfl
    · rw [hf]
      rfl

theorem gocn_names {st : Registry} {n : String} {k : DAGNodeType} {st1 : Registry}
    (h : get_or_create_node st n k = .ok st1) :
    names st1 = names st ∨ (findNode st n = none ∧ names st1 = names st ++ [n]) := by
  rcases gocn_cases h with ⟨hf, rfl⟩ | ⟨nd, hf, hcase⟩
  · refine Or.inr ⟨hf, ?_⟩
    simp [names]
  · rcases hcase with ⟨ht, rfl⟩ | ⟨ht, hk, rfl⟩
    · exact Or.inl (names_updateNode (fun y => rfl))
    · exact Or.inl rfl

theorem gocn_wf {st : Registry} {n : String} {k : DAGNodeType} {st1 : Registry}
    (hwf : (names st).Nodup) (h : get_or_create_node st n k = .ok st1) :
    (names st1).Nodup := by
  rcases gocn_names h with hn | ⟨hf, hn⟩
  · rw [hn]
    exact hwf
  · rw [hn, List.nodup_append]
    refine ⟨hwf, List.nodup_singleton n, ?_⟩
    intro x hx hxn
    rw [List.mem_singleton] at hxn
    subst hxn
    rw [findNode_eq_none_iff] at hf
    exact hf hx

theorem gocn_noop_unknown {st : Registry} (hwf : (names st).Nodup) {nm : String}
    {nd : DAGNode} (h : findNode st nm = some nd) :
    get_or_create_node st nm .Unknown = .ok st := by
  unfold get_or_create_node
  split
  next hf =>
    rw [h] at hf
    cases hf
  next nd' hf =>
    rw [h] at hf
    injection hf with hf
    subst hf
    by_cases ht : nd.type = .Unknown
    · rw [if_pos ht, updateNode_eq_self hwf h (setTypeUpd_eq_self ht)]
    · rw [if_neg ht, if_pos rfl]

theorem gocn_noop_concrete {st : Registry} {nm : String} {nd : DAGNode}
    {k : DAGNodeType} (h : findNode st nm = some nd) (ht : nd.type ≠ .Unknown)
    (hk : nd.type = k) :
    get_or_create_node st nm k = .ok st := by
  unfold get_or_create_node
  split
  next hf =>
    rw [h] at hf
    cases hf
  next nd' hf =>
    rw [h] at hf
    injection hf with hf
    subst hf
    rw [if_neg ht]
    by_cases hku : k = .Unknown
    · rw [if_pos hku]
    · rw [if_neg hku, if_pos hk]

/-- C10: when both endpoints already exist, add_parent_edge leaves the
registry unchanged except that t is inserted into the from node's parents
(every other field of that node, the to node, and every other node are
untouched and no node is added); add_deps likewise changes only the from
node's deps. -/
theorem edge_ops_frame (st : Registry) (f t : String) (hwf : (names st).Nodup)
    (nf nt : DAGNode) (hf : findNode st f = some nf) (ht : findNode st t = some nt) :
    add_parent_edge st f t = .ok (updateNode st f (addParentUpd t)) ∧
    add_deps st f t = .ok (updateNode st f (addDepUpd t)) ∧
    names (updateNode st f (addParentUpd t)) = names st ∧
    names (updateNode st f (addDepUpd t)) = names st ∧
    (∀ w, w ≠ f → findNode (updateNode st f (addParentUpd t)) w = findNode st w ∧
      findNode (updateNode st f (addDepUpd t)) w = findNode st w) ∧
    findNode (updateNode st f (addParentUpd t)) f =
      some { nf with parents := insertSet nf.parents t } ∧
    findNode (updateNode st f (addDepUpd t)) f =
      some { nf with deps := insertSet nf.deps t } := by
  have hgp : ∀ x : DAGNode, (addParentUpd t x).name = x.name := fun x => rfl
  have hgd : ∀ x : DAGNode, (addDepUpd t x).name = x.name := fun x => rfl
  refine ⟨?_, ?_, names_updateNode hgp, names_updateNode hgd, ?_, ?_, ?_⟩
  · unfold add_parent_edge
    rw [gocn_noop_unknown hwf ht, exceptBindOk, gocn_noop_unknown hwf hf, exceptBindOk]
    rfl
  · unfold add_deps
    rw [gocn_noop_unknown hwf hf, exceptBindOk, gocn_noop_unknown hwf ht, exceptBindOk]
    rfl
  · intro w hw
    rw [findNode_updateNode hgp, if_neg hw, findNode_updateNode hgd, if_neg hw]
    exact ⟨rfl, rfl⟩
  · rw [findNode_updateNode hgp, if_pos rfl, hf]
    rfl
  · rw [findNode_updateNode hgd, if_pos rfl, hf]
    rfl

/-- C10 witness: the two-node registry x, y exhibits the frame result of
add_parent_edge concretely. -/
theorem edge_ops_frame_witness :
    add_parent_edge
        [⟨"x", .Unknown, [], [], [], [], []⟩, ⟨"y", .Unknown, [], [], [], [], []⟩]
        "x" "y" =
      .ok (updateNode
        [⟨"x", .Unknown, [], [], [], [], []⟩, ⟨"y", .Unknown, [], [], [], [], []⟩]
        "x" (addParentUpd "y")) :=
  (edge_ops_frame
    [⟨"x", .Unknown, [], [], [], [], []⟩, ⟨"y", .Unknown, [], [], [], [], []⟩]
    "x" "y" (by decide) ⟨"x", .Unknown, [], [], [], [], []⟩
    ⟨"y", .Unknown, [], [], [], [], []⟩ rfl rfl).1

theorem insertSet_idem {α : Type} [DecidableEq α] (l : List α) (a : α) :
    insertSet (insertSet l a) a = insertSet l a :=
  insertSet_eq_of_mem (self_mem_insertSet l a)

theorem addParentUpd_idem (t : String) (n : DAGNode) :
    addParentUpd t (addParentUpd t n) = addParentUpd t n := by
  cases n
  simp only [addParentUpd]
  rw [insertSet_idem]

theorem addDepUpd_idem (t : String) (n : DAGNode) :
    addDepUpd t (addDepUpd t n) = addDepUpd t n := by
  cases n
  simp only [addDepUpd]
  rw [insertSet_idem]

theorem addInputUpd_idem (t : String) (idx : Nat) (n : DAGNode) :
    addInputUpd t idx (addInputUpd t idx n) = addInputUpd t idx n := by
  cases n
  simp only [addInputUpd]
  rw [insertSet_idem]

theorem spendGrowUpd_length (idx : Nat) (n : DAGNode) :
    idx < (spendGrowUpd idx n).outputs.length := by
  cases n with
  | mk nm ty ps is os ds as =>
    simp only [spendGrowUpd]
    split
    next h =>
      simp only [List.length_set, List.length_append, List.length_replicate]
      omega
    next h =>
      simp only at h ⊢
      omega

theorem spendGrowUpd_eq_self {idx : Nat} {n : DAGNode} (h : idx < n.outputs.length) :
    spendGrowUpd idx n = n := by
  unfold spendGrowUpd
  rw [if_neg (by omega)]

theorem setOutputUpd_length (i a : Nat) (tok : String) (ats : List (String × String))
    (n : DAGNode) : i < (setOutputUpd i a tok ats n).outputs.length := by
  cases n with
  | mk nm ty ps is os ds as =>
    simp only [setOutputUpd, List.length_set]
    split
    next h =>
      simp only [List.length_append, List.length_replicate]
      omega
    next h =>
      omega

theorem setOutputUpd_idem (i a : Nat) (tok : String) (ats : List (String × String))
    (n : DAGNode) :
    setOutputUpd i a tok ats (setOutputUpd i a tok ats n) = setOutputUpd i a tok ats n := by
  have hlen := setOutputUpd_length i a tok ats n
  cases n with
  | mk nm ty ps is os ds as =>
    simp only [setOutputUpd] at hlen ⊢
    rw [if_neg (by omega), List.set_set]

theorem add_parent_edge_via {st s1 s2 : Registry} {f t : String}
    (h1 : get_or_create_node st t .Unknown = .ok s1)
    (h2 : get_or_create_node s1 f .Unknown = .ok s2) :
    add_parent_edge st f t = .ok (updateNode s2 f (addParentUpd t)) := by
  unfold add_parent_edge
  rw [h1, exceptBindOk, h2, exceptBindOk]
  rfl

theorem add_deps_via {st s1 s2 : Registry} {f t : String}
    (h1 : get_or_create_node st f .Unknown = .ok s1)
    (h2 : get_or_create_node s1 t .Unknown = .ok s2) :
    add_deps st f t = .ok (updateNode s2 f (addDepUpd t)) := by
  unfold add_deps
  rw [h1, exceptBindOk, h2, exceptBindOk]
  rfl

theorem add_spending_edge_via {st s1 s3 : Registry} {f t : String} {idx : Nat}
    (h1 : get_or_create_node st t .Unknown = .ok s1)
    (h3 : get_or_create_node (updateNode s1 t (spendGrowUpd idx)) f .Unknown = .ok s3) :
    add_spending_edge st f t idx = .ok (updateNode s3 f (addInputUpd t idx)) := by
  unfold add_spending_edge
  rw [h1, exceptBindOk]
  show (do
      let st3 ← get_or_create_node (updateNode s1 t (spendGrowUpd idx)) f .Unknown
      pure (updateNode st3 f (addInputUpd t idx)) : Except String Registry) = _
  rw [h3, exceptBindOk]
  rfl

theorem set_output_via_htr {st s1 : Registry} {nm : String} {i a : Nat}
    {ats : List (String × String)}
    (h1 : get_or_create_node st nm .Unknown = .ok s1) :
    set_output st nm i a "HTR" ats = .ok (updateNode s1 nm (setOutputUpd i a "HTR" ats)) := by
  unfold set_output
  rw [h1, exceptBindOk]
  rfl

theorem set_output_via_tok {st s1 s3 : Registry} {nm : String} {i a : Nat} {tok : String}
    {ats : List (String × String)} (htok : tok ≠ "HTR")
    (h1 : get_or_create_node st nm .Unknown = .ok s1)
    (h3 : get_or_create_node (updateNode s1 nm (setOutputUpd i a tok ats)) tok .Token =
      .ok s3) :
    set_output st nm i a tok ats = .ok (updateNode s3 nm (addDepUpd tok)) := by
  unfold set_output
  rw [h1, exceptBindOk]
  show (if tok = "HTR" then pure (updateNode s1 nm (setOutputUpd i a tok ats))
      else do
        let st3 ← get_or_create_node (updateNode s1 nm (setOutputUpd i a tok ats))
          tok .Token
        pure (updateNode st3 nm (addDepUpd tok)) : Except String Registry) = _
  rw [if_neg htok, h3, exceptBindOk]
  rfl

theorem gocn_self_type {st : Registry} {n : String} {k : DAGNodeType} {st1 : Registry}
    (h : get_or_create_node st n k = .ok st1) (hk : k ≠ .Unknown) :
    ∃ x, findNode st1 n = some x ∧ x.type = k := by
  rcases gocn_cases h with ⟨hf, rfl⟩ | ⟨nd, hf, hcase⟩
  · refine ⟨⟨n, k, [], [], [], [], []⟩, ?_, rfl⟩
    exact @findNode_append_self_of_none st n ⟨n, k, [], [], [], [], []⟩ rfl hf
  · rcases hcase with ⟨ht, rfl⟩ | ⟨ht, hor, rfl⟩
    · have hg : ∀ y : DAGNode, (setTypeUpd k y).name = y.name := fun y => rfl
      refine ⟨setTypeUpd k nd, ?_, rfl⟩
      rw [findNode_updateNode hg, if_pos rfl, hf]
      rfl
    · rcases hor with hu | he
      · exact absurd hu hk
      · exact ⟨nd, hf, he⟩

theorem setOutputUpd_eq_self_of_outputs {i a : Nat} {tok : String}
    {ats : List (String × String)} {x y : DAGNode}
    (h : y.outputs = (setOutputUpd i a tok ats x).outputs) :
    setOutputUpd i a tok ats y = y := by
  have hlen : i < y.outputs.length := by
    rw [h]
    exact setOutputUpd_length i a tok ats x
  cases y with
  | mk nm2 ty ps is os ds as =>
    simp only [setOutputUpd] at h ⊢
    simp only at hlen
    rw [if_neg (by omega)]
    have hset : os.set i (some ⟨a, tok, ats⟩) = os := by
      rw [h, List.set_set]
    rw [hset]

theorem add_parent_edge_idem {st : Registry} (hwf : (names st).Nodup) {f t : String}
    {st' : Registry} (h : add_parent_edge st f t = .ok st') :
    add_parent_edge st' f t = .ok st' := by
  unfold add_parent_edge at h
  rcases exceptBind_eq_ok h with ⟨st1, h1, hrest⟩
  rcases exceptBind_eq_ok hrest with ⟨st2, h2, hpure⟩
  have hst' : updateNode st2 f (addParentUpd t) = st' := Except.ok.inj hpure
  have hgp : ∀ x : DAGNode, (addParentUpd t x).name = x.name := fun x => rfl
  have hwf1 : (names st1).Nodup := gocn_wf hwf h1
  have hwf2 : (names st2).Nodup := gocn_wf hwf1 h2
  have hwf' : (names st').Nodup := by
    rw [← hst', names_updateNode hgp]
    exact hwf2
  rcases Option.isSome_iff_exists.mp (gocn_self_isSome h2) with ⟨nf2, hnf2⟩
  have hff' : findNode st' f = some (addParentUpd t nf2) := by
    rw [← hst', findNode_updateNode hgp, if_pos rfl, hnf2]
    rfl
  have htex : ∃ nt', findNode st' t = some nt' := by
    by_cases htf : t = f
    · exact ⟨addParentUpd t nf2, by nth_rewrite 1 [htf]; exact hff'⟩
    · rcases Option.isSome_iff_exists.mp (gocn_self_isSome h1) with ⟨nt1, hnt1⟩
      rcases gocn_preserves h2 hnt1 with ⟨nt2, hnt2, _⟩
      refine ⟨nt2, ?_⟩
      rw [← hst', findNode_updateNode hgp, if_neg htf]
      exact hnt2
  rcases htex with ⟨nt', hnt'⟩
  rw [add_parent_edge_via (gocn_noop_unknown hwf' hnt') (gocn_noop_unknown hwf' hff'),
    updateNode_eq_self hwf' hff' (addParentUpd_idem t nf2)]

theorem add_deps_idem {st : Registry} (hwf : (names st).Nodup) {f t : String}
    {st' : Registry} (h : add_deps st f t = .ok st') :
    add_deps st' f t = .ok st' := by
  unfold add_deps at h
  rcases exceptBind_eq_ok h with ⟨st1, h1, hrest⟩
  rcases exceptBind_eq_ok hrest with ⟨st2, h2, hpure⟩
  have hst' : updateNode st2 f (addDepUpd t) = st' := Except.ok.inj hpure
  have hgd : ∀ x : DAGNode, (addDepUpd t x).name = x.name := fun x => rfl
  have hwf1 : (names st1).Nodup := gocn_wf hwf h1
  have hwf2 : (names st2).Nodup := gocn_wf hwf1 h2
  have hwf' : (names st').Nodup := by
    rw [← hst', names_updateNode hgd]
    exact hwf2
  rcases Option.isSome_iff_exists.mp (gocn_self_isSome h1) with ⟨nf1, hnf1⟩
  rcases gocn_preserves h2 hnf1 with ⟨nf2, hnf2, _⟩
  have hff' : findNode st' f = some (addDepUpd t nf2) := by
    rw [← hst', findNode_updateNode hgd, if_pos rfl, hnf2]
    rfl
  have htex : ∃ nt', findNode st' t = some nt' := by
    by_cases htf : t = f
    · exact ⟨addDepUpd t nf2, by nth_rewrite 1 [htf]; exact hff'⟩
    · rcases Option.isSome_iff_exists.mp (gocn_self_isSome h2) with ⟨nt2, hnt2⟩
      refine ⟨nt2, ?_⟩
      rw [← hst', findNode_updateNode hgd, if_neg htf]
      exact hnt2
  rcases htex with ⟨nt', hnt'⟩
  rw [add_deps_via (gocn_noop_unknown hwf' hff') (gocn_noop_unknown hwf' hnt'),
    updateNode_eq_self hwf' hff' (addDepUpd_idem t nf2)]

theorem add_spending_edge_idem {st : Registry} (hwf : (names st).Nodup)
    {f t : String} {idx : Nat} {st' : Registry}
    (h : add_spending_edge st f t idx = .ok st') :
    add_spending_edge st' f t idx = .ok st' := by
  unfold add_spending_edge at h
  rcases exceptBind_eq_ok h with ⟨st1, h1, hrest⟩
  have hrest2 : (do
      let st3 ← get_or_create_node (updateNode st1 t (spendGrowUpd idx)) f .Unknown
      pure (updateNode st3 f (addInputUpd t idx)) : Except String Registry) = .ok st' :=
    hrest
  rcases exceptBind_eq_ok hrest2 with ⟨st3, h3, hpure⟩
  have hst' : updateNode st3 f (addInputUpd t idx) = st' := Except.ok.inj hpure
  have hgi : ∀ x : DAGNode, (addInputUpd t idx x).name = x.name := fun x => rfl
  have hgs : ∀ x : DAGNode, (spendGrowUpd idx x).name = x.name := by
    intro x
    unfold spendGrowUpd
    split <;> rfl
  have hwf1 : (names st1).Nodup := gocn_wf hwf h1
  have hwf2 : (names (updateNode st1 t (spendGrowUpd idx))).Nodup := by
    rw [names_updateNode hgs]
    exact hwf1
  have hwf3 : (names st3).Nodup := gocn_wf hwf2 h3
  have hwf' : (names st').Nodup := by
    rw [← hst', names_updateNode hgi]
    exact hwf3
  rcases Option.isSome_iff_exists.mp (gocn_self_isSome h1) with ⟨nt1, hnt1⟩
  have hnt2 : findNode (updateNode st1 t (spendGrowUpd idx)) t =
      some (spendGrowUpd idx nt1) := by
    rw [findNode_updateNode hgs, if_pos rfl, hnt1]
    rfl
  rcases gocn_preserves h3 hnt2 with ⟨nt3, hnt3, _, _, _, houts3, _, _⟩
  rcases Option.isSome_iff_exists.mp (gocn_self_isSome h3) with ⟨nf3, hnf3⟩
  have hff' : findNode st' f = some (addInputUpd t idx nf3) := by
    rw [← hst', findNode_updateNode hgi, if_pos rfl, hnf3]
    rfl
  have htlen : ∃ nt', findNode st' t = some nt' ∧ idx < nt'.outputs.length := by
    by_cases htf : t = f
    · refine ⟨addInputUpd t idx nf3, by nth_rewrite 1 [htf]; exact hff', ?_⟩
      have heq : nf3 = nt3 := by
        rw [htf] at hnt3
        rw [hnf3] at hnt3
        exact Option.some.inj hnt3
      show idx < nf3.outputs.length
      rw [heq, houts3]
      exact spendGrowUpd_length idx nt1
    · refine ⟨nt3, ?_, ?_⟩
      · rw [← hst', findNode_updateNode hgi, if_neg htf]
        exact hnt3
      · rw [houts3]
        exact spendGrowUpd_length idx nt1
  rcases htlen with ⟨nt', hnt', hlen'⟩
  have hupd : updateNode st' t (spendGrowUpd idx) = st' :=
    updateNode_eq_self hwf' hnt' (spendGrowUpd_eq_self hlen')
  have h3' : get_or_create_node (updateNode st' t (spendGrowUpd idx)) f .Unknown =
      .ok st' := by
    rw [hupd]
    exact gocn_noop_unknown hwf' hff'
  rw [add_spending_edge_via (gocn_noop_unknown hwf' hnt') h3',
    updateNode_eq_self hwf' hff' (addInputUpd_idem t idx nf3)]

theorem set_output_idem {st : Registry} (hwf : (names st).Nodup) {nm : String}
    {i a : Nat} {tok : String} {ats : List (String × String)} {st' : Registry}
    (h : set_output st nm i a tok ats = .ok st') :
    set_output st' nm i a tok ats = .ok st' := by
  unfold set_output at h
  rcases exceptBind_eq_ok h with ⟨st1, h1, hrest⟩
  have hgo : ∀ x : DAGNode, (setOutputUpd i a tok ats x).name = x.name := fun x => rfl
  have hgd : ∀ x : DAGNode, (addDepUpd tok x).name = x.name := fun x => rfl
  have hwf1 : (names st1).Nodup := gocn_wf hwf h1
  have hwf2 : (names (updateNode st1 nm (setOutputUpd i a tok ats))).Nodup := by
    rw [names_updateNode hgo]
    exact hwf1
  rcases Option.isSome_iff_exists.mp (gocn_self_isSome h1) with ⟨nm1, hnm1⟩
  have hnm2 : findNode (updateNode st1 nm (setOutputUpd i a tok ats)) nm =
      some (setOutputUpd i a tok ats nm1) := by
    rw [findNode_updateNode hgo, if_pos rfl, hnm1]
    rfl
  by_cases htok : tok = "HTR"
  · subst htok
    have hst' : updateNode st1 nm (setOutputUpd i a "HTR" ats) = st' :=
      Except.ok.inj hrest
    have hwf' : (names st').Nodup := by
      rw [← hst']
      exact hwf2
    have hnm' : findNode st' nm = some (setOutputUpd i a "HTR" ats nm1) := by
      rw [← hst']
      exact hnm2
    rw [set_output_via_htr (gocn_noop_unknown hwf' hnm'),
      updateNode_eq_self hwf' hnm' (setOutputUpd_idem i a "HTR" ats nm1)]
  · have hrest2 : (if tok = "HTR" then
        pure (updateNode st1 nm (setOutputUpd i a tok ats))
      else do
        let st3 ← get_or_create_node (updateNode st1 nm (setOutputUpd i a tok ats))
          tok .Token
        pure (updateNode st3 nm (addDepUpd tok)) : Except String Registry) = .ok st' :=
      hrest
    rw [if_neg htok] at hrest2
    rcases exceptBind_eq_ok hrest2 with ⟨st3, h3, hpure⟩
    have hst' : updateNode st3 nm (addDepUpd tok) = st' := Except.ok.inj hpure
    have hwf3 : (names st3).Nodup := gocn_wf hwf2 h3
    have hwf' : (names st').Nodup := by
      rw [← hst', names_updateNode hgd]
      exact hwf3
    rcases gocn_preserves h3 hnm2 with ⟨nm3, hnm3, _, _, _, houts3, _, _⟩
    have hnm' : findNode st' nm = some (addDepUpd tok nm3) := by
      rw [← hst', findNode_updateNode hgd, if_pos rfl, hnm3]
      rfl
    rcases gocn_self_type h3 (by decide) with ⟨ntk3, hntk3, htype3⟩
    have htk' : ∃ ntk', findNode st' tok = some ntk' ∧ ntk'.type = .Token := by
      by_cases htknm : tok = nm
      · refine ⟨addDepUpd tok nm3, by nth_rewrite 1 [htknm]; exact hnm', ?_⟩
        have heq : nm3 = ntk3 := by
          rw [htknm] at hntk3
          rw [hnm3] at hntk3
          exact Option.some.inj hntk3
        show nm3.type = DAGNodeType.Token
        rw [heq]
        exact htype3
      · refine ⟨ntk3, ?_, htype3⟩
        rw [← hst', findNode_updateNode hgd, if_neg htknm]
        exact hntk3
    rcases htk' with ⟨ntk', hntk', htype'⟩
    have houts' : (addDepUpd tok nm3).outputs = (setOutputUpd i a tok ats nm1).outputs :=
      houts3
    have hupd : updateNode st' nm (setOutputUpd i a tok ats) = st' :=
      updateNode_eq_self hwf' hnm' (setOutputUpd_eq_self_of_outputs houts')
    have h3' : get_or_create_node (updateNode st' nm (setOutputUpd i a tok ats))
        tok .Token = .ok st' := by
      rw [hupd]
      exact gocn_noop_concrete hntk' (by rw [htype']; decide) htype'
    rw [set_output_via_tok htok (gocn_noop_unknown hwf' hnm') h3',
      updateNode_eq_self hwf' hnm' (addDepUpd_idem tok nm3)]

/-- C9: each relationship-recording operation is idempotent — repeating a
successful add_parent_edge, add_spending_edge, set_output or
addOrderingDependency (add_deps) call with identical arguments leaves the
registry exactly as after the first call. -/
theorem recording_ops_idempotent :
    (∀ st f t st', (names st).Nodup → add_parent_edge st f t = .ok st' →
      add_parent_edge st' f t = .ok st') ∧
    (∀ st f t idx st', (names st).Nodup → add_spending_edge st f t idx = .ok st' →
      add_spending_edge st' f t idx = .ok st') ∧
    (∀ st nm i a tok ats st', (names st).Nodup → set_output st nm i a tok ats = .ok st' →
      set_output st' nm i a tok ats = .ok st') ∧
    (∀ st f t st', (names st).Nodup → add_deps st f t = .ok st' →
      add_deps st' f t = .ok st') :=
  ⟨fun _ _ _ _ hwf h => add_parent_edge_idem hwf h,
   fun _ _ _ _ _ hwf h => add_spending_edge_idem hwf h,
   fun _ _ _ _ _ _ _ hwf h => set_output_idem hwf h,
   fun _ _ _ _ hwf h => add_deps_idem hwf h⟩

/-- C9 witness: repeating the concrete spend edge tx1-spends-blk0-slot-1
on the resulting registry returns the same registry. -/
theorem recording_ops_idempotent_witness :
    add_spending_edge
        [⟨"blk0", .Unknown, [], [], [none, some zeroOutput], [], []⟩,
         ⟨"tx1", .Unknown, [], [⟨"blk0", 1⟩], [], [], []⟩] "tx1" "blk0" 1 =
      .ok [⟨"blk0", .Unknown, [], [], [none, some zeroOutput], [], []⟩,
        ⟨"tx1", .Unknown, [], [⟨"blk0", 1⟩], [], [], []⟩] :=
  recording_ops_idempotent.2.1 [] "tx1" "blk0" 1
    [⟨"blk0", .Unknown, [], [], [none, some zeroOutput], [], []⟩,
     ⟨"tx1", .Unknown, [], [⟨"blk0", 1⟩], [], [], []⟩]
    (by decide) rfl

theorem growList_facts (l : List (Option DAGOutput)) (idx : Nat) (h : l.length ≤ idx) :
    ((l ++ List.replicate (idx + 1 - l.length) none).set idx (some zeroOutput)).length =
        idx + 1 ∧
    (∀ j, j < l.length →
      ((l ++ List.replicate (idx + 1 - l.length) none).set idx (some zeroOutput))[j]? =
        l[j]?) ∧
    ((l ++ List.replicate (idx + 1 - l.length) none).set idx (some zeroOutput))[idx]? =
      some (some zeroOutput) ∧
    (∀ j, l.length ≤ j → j < idx →
      ((l ++ List.replicate (idx + 1 - l.length) none).set idx (some zeroOutput))[j]? =
        some none) := by
  have hlen : (l ++ List.replicate (idx + 1 - l.length) none).length = idx + 1 := by
    rw [List.length_append, List.length_replicate]
    omega
  refine ⟨?_, ?_, ?_, ?_⟩
  · rw [List.length_set]
    exact hlen
  · intro j hj
    rw [List.getElem?_set_ne (by omega : idx ≠ j), List.getElem?_append_left hj]
  · rw [List.getElem?_set_self (by omega)]
  · intro j hj1 hj2
    rw [List.getElem?_set_ne (by omega : idx ≠ j), List.getElem?_append,
      if_neg (by omega), List.getElem?_replicate, if_pos (by omega)]

theorem spendGrowUpd_outputs {idx : Nat} {n : DAGNode} (h : n.outputs.length ≤ idx) :
    (spendGrowUpd idx n).outputs =
      (n.outputs ++ List.replicate (idx + 1 - n.outputs.length) none).set idx
        (some zeroOutput) := by
  unfold spendGrowUpd
  rw [if_pos h]

/-- C4 counterexample: after set_output("tx1", 3, 500, "HTR", {}) on a
fresh builder, slots 0 through 2 of tx1's outputs are unset (None) — not
the zero-value placeholder descriptor the claim asserts. -/
theorem sparse_output_counterexample :
    set_output [] "tx1" 3 500 "HTR" [] = Except.ok
      [⟨"tx1", .Unknown, [], [], [none, none, none, some ⟨500, "HTR", []⟩], [], []⟩] ∧
    ([none, none, none, some ⟨500, "HTR", []⟩] : List (Option DAGOutput))[0]? =
      some none ∧
    (some (none : Option DAGOutput) ≠ some (some zeroOutput)) :=
  ⟨rfl, rfl, by decide⟩

/-- C4 amended: set_output("tx1", 3, 500, "HTR", {}) on a fresh node gives
an output list of length exactly 4 whose slots 0-2 are unset (None) and
whose slot 3 holds the descriptor (500, HTR, {}); add_spending_edge grows
to.outputs to max(len, slot+1), putting the zero-value placeholder
descriptor at the spent slot when it lay beyond the old length, leaving
newly created intermediate slots unset, keeping every pre-existing slot
unchanged, and inserting (to, slot) into from.inputs. -/
theorem spend_edge_growth :
    (set_output [] "tx1" 3 500 "HTR" [] = Except.ok
      [⟨"tx1", .Unknown, [], [], [none, none, none, some ⟨500, "HTR", []⟩], [], []⟩]) ∧
    (∀ st f t idx st', add_spending_edge st f t idx = .ok st' →
      (∀ nt, findNode st t = some nt →
        ∃ nt', findNode st' t = some nt' ∧
          nt'.outputs.length = max nt.outputs.length (idx + 1) ∧
          (∀ j, j < nt.outputs.length → nt'.outputs[j]? = nt.outputs[j]?) ∧
          (nt.outputs.length ≤ idx →
            nt'.outputs[idx]? = some (some zeroOutput) ∧
            (∀ j, nt.outputs.length ≤ j → j < idx → nt'.outputs[j]? = some none))) ∧
      (findNode st t = none →
        ∃ nt', findNode st' t = some nt' ∧
          nt'.outputs.length = idx + 1 ∧
          nt'.outputs[idx]? = some (some zeroOutput) ∧
          (∀ j, j < idx → nt'.outputs[j]? = some none)) ∧
      (∀ nf', findNode st' f = some nf' → DAGInput.mk t idx ∈ nf'.inputs)) := by
  refine ⟨rfl, ?_⟩
  intro st f t idx st' h
  unfold add_spending_edge at h
  rcases exceptBind_eq_ok h with ⟨st1, h1, hrest⟩
  have hrest2 : (do
      let st3 ← get_or_create_node (updateNode st1 t (spendGrowUpd idx)) f .Unknown
      pure (updateNode st3 f (addInputUpd t idx)) : Except String Registry) = .ok st' :=
    hrest
  rcases exceptBind_eq_ok hrest2 with ⟨st3, h3, hpure⟩
  have hst' : updateNode st3 f (addInputUpd t idx) = st' := Except.ok.inj hpure
  have hgi : ∀ x : DAGNode, (addInputUpd t idx x).name = x.name := fun x => rfl
  have hgs : ∀ x : DAGNode, (spendGrowUpd idx x).name = x.name := by
    intro x
    unfold spendGrowUpd
    split <;> rfl
  have hmain : ∀ nt1, findNode st1 t = some nt1 →
      ∃ nt', findNode st' t = some nt' ∧ nt'.outputs = (spendGrowUpd idx nt1).outputs := by
    intro nt1 hnt1
    have hnt2 : findNode (updateNode st1 t (spendGrowUpd idx)) t =
        some (spendGrowUpd idx nt1) := by
      rw [findNode_updateNode hgs, if_pos rfl, hnt1]
      rfl
    rcases gocn_preserves h3 hnt2 with ⟨nt3, hnt3, _, _, _, houts3, _, _⟩
    by_cases htf : t = f
    · refine ⟨addInputUpd t idx nt3, ?_, houts3⟩
      rw [← hst', findNode_updateNode hgi, if_pos htf, ← htf, hnt3]
      rfl
    · refine ⟨nt3, ?_, houts3⟩
      rw [← hst', findNode_updateNode hgi, if_neg htf]
      exact hnt3
  refine ⟨?_, ?_, ?_⟩
  · intro nt hnt
    rcases gocn_preserves h1 hnt with ⟨nt1, hnt1, _, _, _, houts1, _, _⟩
    rcases hmain nt1 hnt1 with ⟨nt', hnt', houts'⟩
    refine ⟨nt', hnt', ?_, ?_, ?_⟩
    · rw [houts', ← houts1]
      by_cases hle : nt1.outputs.length ≤ idx
      · rw [spendGrowUpd_outputs hle]
        rw [(growList_facts nt1.outputs idx hle).1]
        omega
      · rw [spendGrowUpd_eq_self (by omega)]
        omega
    · intro j hj
      rw [houts', ← houts1]
      by_cases hle : nt1.outputs.length ≤ idx
      · rw [spendGrowUpd_outputs hle]
        exact (growList_facts nt1.outputs idx hle).2.1 j (by rw [houts1]; exact hj)
      · rw [spendGrowUpd_eq_self (by omega)]
    · intro hle
      rw [houts']
      have hle1 : nt1.outputs.length ≤ idx := by rw [houts1]; exact hle
      rw [spendGrowUpd_outputs hle1]
      refine ⟨(growList_facts nt1.outputs idx hle1).2.2.1, ?_⟩
      intro j hj1 hj2
      exact (growList_facts nt1.outputs idx hle1).2.2.2 j (by rw [houts1]; exact hj1) hj2
  · intro hnone
    rcases gocn_cases h1 with ⟨hf, rfl⟩ | ⟨nd, hf, _⟩
    · have hnt1 : findNode (st ++ [(⟨t, .Unknown, [], [], [], [], []⟩ : DAGNode)]) t =
          some ⟨t, .Unknown, [], [], [], [], []⟩ :=
        @findNode_append_self_of_none st t ⟨t, .Unknown, [], [], [], [], []⟩ rfl hnone
      rcases hmain _ hnt1 with ⟨nt', hnt', houts'⟩
      have hle : ([] : List (Option DAGOutput)).length ≤ idx := by simp
      refine ⟨nt', hnt', ?_, ?_, ?_⟩
      · rw [houts', spendGrowUpd_outputs hle]
        rw [(growList_facts [] idx hle).1]
      · rw [houts', spendGrowUpd_outputs hle]
        exact (growList_facts [] idx hle).2.2.1
      · intro j hj
        rw [houts', spendGrowUpd_outputs hle]
        exact (growList_facts [] idx hle).2.2.2 j (by simp) hj
    · rw [hnone] at hf
      cases hf
  · intro nf' hnf'
    rcases Option.isSome_iff_exists.mp (gocn_self_isSome h3) with ⟨nf3, hnf3⟩
    rw [← hst', findNode_updateNode hgi, if_pos rfl, hnf3] at hnf'
    injection hnf' with h'
    rw [← h']
    exact self_mem_insertSet nf3.inputs ⟨t, idx⟩

/-- C4 amended witness: spending slot 2 of the fresh node blk grows its
outputs to three slots with the placeholder at slot 2 and records the
input on tx. -/
theorem spend_edge_growth_witness :
    (∃ nt', findNode
        [⟨"blk", .Unknown, [], [], [none, none, some zeroOutput], [], []⟩,
         ⟨"tx", .Unknown, [], [⟨"blk", 2⟩], [], [], []⟩] "blk" = some nt' ∧
      nt'.outputs.length = 2 + 1 ∧
      nt'.outputs[2]? = some (some zeroOutput) ∧
      (∀ j, j < 2 → nt'.outputs[j]? = some none)) :=
  (spend_edge_growth.2 [] "tx" "blk" 2
    [⟨"blk", .Unknown, [], [], [none, none, some zeroOutput], [], []⟩,
     ⟨"tx", .Unknown, [], [⟨"blk", 2⟩], [], [], []⟩] rfl).2.1 rfl

/-- C1 counterexample: the registry produced by set_output("tx1", 0, 100,
"HTR", {}) sorts successfully to ["tx1"], yet the specification's full
dependency set of tx1 contains the output token name HTR, which does not
appear strictly before tx1 in the sequence (it never appears at all). -/
theorem full_dep_order_counterexample :
    set_output [] "tx1" 0 100 "HTR" [] = Except.ok
      [⟨"tx1", .Unknown, [], [], [some ⟨100, "HTR", []⟩], [], []⟩] ∧
    topological_sorting [⟨"tx1", .Unknown, [], [], [some ⟨100, "HTR", []⟩], [], []⟩] =
      SortResult.ok ["tx1"] ∧
    "HTR" ∈ fullDepSetClaim ⟨"tx1", .Unknown, [], [], [some ⟨100, "HTR", []⟩], [], []⟩ ∧
    (["tx1"] : List String)[0]? = some "tx1" ∧
    "HTR" ∉ (["tx1"] : List String).take 0 :=
  ⟨rfl, rfl, by decide, rfl, by decide⟩

theorem decide_and_mem_append {a nm : String} {emitted : List String} :
    (decide (a ≠ nm) && decide (a ∉ emitted)) = decide (a ∉ emitted ++ [nm]) := by
  by_cases h1 : a ∈ emitted
  · simp [h1, List.mem_append]
  · by_cases h2 : a = nm
    · simp [h1, h2, List.mem_append]
    · simp [h1, h2, List.mem_append]

theorem processDeps_spec (R : Registry) (nm : String) (emitted : List String) :
    ∀ (revs : List String) (dd : DDMap) (cands : List String),
    revs.Nodup →
    (∀ d ∈ revs, ∃ ndd, findNode R d = some ndd ∧ nm ∈ depsSet ndd) →
    (∀ d ∈ revs, d ∉ emitted ∧ d ≠ nm ∧ d ∉ cands) →
    (∀ x ∈ cands, x ∈ names R) →
    cands.Nodup →
    (∀ x ∈ cands, x ∉ emitted ∧ x ≠ nm) →
    (∀ c ∈ cands, ∀ nc, findNode R c = some nc → ∀ x ∈ depsSet nc,
      x ∈ emitted ++ [nm]) →
    (∀ w ∈ revs, ∀ nw, findNode R w = some nw →
      ddFind dd w = some ((depsSet nw).filter (fun x => decide (x ∉ emitted)))) →
    (∀ w, w ∉ revs → w ∉ emitted → w ≠ nm → w ∉ cands → ∀ nw, findNode R w = some nw →
      ddFind dd w = some ((depsSet nw).filter (fun x => decide (x ∉ emitted ++ [nm])))) →
    ((∀ x ∈ (processDeps nm revs dd cands).2, x ∈ names R) ∧
     (processDeps nm revs dd cands).2.Nodup ∧
     (∀ x ∈ (processDeps nm revs dd cands).2, x ∉ emitted ∧ x ≠ nm) ∧
     (∀ c ∈ (processDeps nm revs dd cands).2, ∀ nc, findNode R c = some nc →
       ∀ x ∈ depsSet nc, x ∈ emitted ++ [nm]) ∧
     (∀ w, w ∉ emitted → w ≠ nm → w ∉ (processDeps nm revs dd cands).2 →
       ∀ nw, findNode R w = some nw →
       ddFind (processDeps nm revs dd cands).1 w =
         some ((depsSet nw).filter (fun x => decide (x ∉ emitted ++ [nm]))))) := by
  intro revs
  induction revs with
  | nil =>
    intro dd cands _ _ _ hcn hcnd hce hcdeps _ hJ5b
    exact ⟨hcn, hcnd, hce, hcdeps,
      fun w hw1 hw2 hw3 => hJ5b w (by simp) hw1 hw2 hw3⟩
  | cons d rest ih =>
    intro dd cands hnodup hrevdeps hdisj hcn hcnd hce hcdeps hJ5a hJ5b
    obtain ⟨hdrest, hrestnodup⟩ := List.nodup_cons.mp hnodup
    obtain ⟨ndd, hndd, hnmdep⟩ := hrevdeps d (List.mem_cons_self d rest)
    obtain ⟨hdne, hdnm, hdnc⟩ := hdisj d (List.mem_cons_self d rest)
    have hdnames : d ∈ names R := by
      rcases findNode_eq_some hndd with ⟨hmem, hname⟩
      rw [← hname]
      exact List.mem_map_of_mem DAGNode.name hmem
    have hentry : ddFind dd d =
        some ((depsSet ndd).filter (fun x => decide (x ∉ emitted))) :=
      hJ5a d (List.mem_cons_self d rest) ndd hndd
    have hentry1 : ddFind (ddRemove dd d nm) d =
        some ((depsSet ndd).filter (fun x => decide (x ∉ emitted ++ [nm]))) := by
      rw [ddFind_ddRemove, if_pos rfl, hentry]
      simp only [Option.map_some']
      rw [List.filter_filter]
      rw [List.filter_congr (fun a _ => decide_and_mem_append)]
    by_cases hemp : (depsSet ndd).filter (fun x => decide (x ∉ emitted ++ [nm])) = []
    · have hstep : processDeps nm (d :: rest) dd cands =
          processDeps nm rest (ddErase (ddRemove dd d nm) d) (cands ++ [d]) := by
        simp only [processDeps]
        rw [hentry1, hemp]
      rw [hstep]
      have hddeps : ∀ x ∈ depsSet ndd, x ∈ emitted ++ [nm] := by
        intro x hx
        by_contra hc
        have : x ∈ (depsSet ndd).filter (fun y => decide (y ∉ emitted ++ [nm])) :=
          List.mem_filter.mpr ⟨hx, by simpa using hc⟩
        rw [hemp] at this
        cases this
      apply ih (ddErase (ddRemove dd d nm) d) (cands ++ [d]) hrestnodup
      · exact fun d' hd' => hrevdeps d' (List.mem_cons_of_mem d hd')
      · intro d' hd'
        obtain ⟨h1, h2, h3⟩ := hdisj d' (List.mem_cons_of_mem d hd')
        refine ⟨h1, h2, ?_⟩
        rw [List.mem_append, List.mem_singleton]
        rintro (hc | rfl)
        · exact h3 hc
        · exact hdrest hd'
      · intro x hx
        rw [List.mem_append, List.mem_singleton] at hx
        rcases hx with hx | rfl
        · exact hcn x hx
        · exact hdnames
      · rw [List.nodup_append]
        exact ⟨hcnd, List.nodup_singleton d,
          fun x hx hxd => hdnc ((List.mem_singleton.mp hxd) ▸ hx)⟩
      · intro x hx
        rw [List.mem_append, List.mem_singleton] at hx
        rcases hx with hx | rfl
        · exact hce x hx
        · exact ⟨hdne, hdnm⟩
      · intro c hc nc hfnc x hx
        rw [List.mem_append, List.mem_singleton] at hc
        rcases hc with hc | rfl
        · exact hcdeps c hc nc hfnc x hx
        · have : nc = ndd := by
            rw [hndd] at hfnc
            exact (Option.some.inj hfnc).symm
          rw [this] at hx
          exact hddeps x hx
      · intro w hw nw hfnw
        have hwd : w ≠ d := fun hc => hdrest (hc ▸ hw)
        rw [ddFind_ddErase, if_neg hwd, ddFind_ddRemove, if_neg hwd]
        exact hJ5a w (List.mem_cons_of_mem d hw) nw hfnw
      · intro w hw1 hw2 hw3 hw4 nw hfnw
        have hwd : w ≠ d := by
          intro hc
          subst hc
          exact hw4 (by rw [List.mem_append, List.mem_singleton]; exact Or.inr rfl)
        have hwc : w ∉ cands := fun hc =>
          hw4 (by rw [List.mem_append]; exact Or.inl hc)
        rw [ddFind_ddErase, if_neg hwd, ddFind_ddRemove, if_neg hwd]
        exact hJ5b w (by
          rw [List.mem_cons]
          rintro (rfl | hc)
          · exact hwd rfl
          · exact hw1 hc) hw2 hw3 hwc nw hfnw
    · have hstep : processDeps nm (d :: rest) dd cands =
          processDeps nm rest (ddRemove dd d nm) cands := by
        cases hL : (depsSet ndd).filter (fun x => decide (x ∉ emitted ++ [nm])) with
        | nil => exact absurd hL hemp
        | cons y ys =>
          simp only [processDeps]
          rw [hentry1, hL]
      rw [hstep]
      apply ih (ddRemove dd d nm) cands hrestnodup
      · exact fun d' hd' => hrevdeps d' (List.mem_cons_of_mem d hd')
      · exact fun d' hd' => hdisj d' (List.mem_cons_of_mem d hd')
      · exact hcn
      · exact hcnd
      · exact hce
      · exact hcdeps
      · intro w hw nw hfnw
        have hwd : w ≠ d := fun hc => hdrest (hc ▸ hw)
        rw [ddFind_ddRemove, if_neg hwd]
        exact hJ5a w (List.mem_cons_of_mem d hw) nw hfnw
      · intro w hw1 hw2 hw3 hw4 nw hfnw
        by_cases hwd : w = d
        · subst hwd
          have : nw = ndd := by
            rw [hndd] at hfnw
            exact (Option.some.inj hfnw).symm
          rw [this]
          exact hentry1
        · rw [ddFind_ddRemove, if_neg hwd]
          exact hJ5b w (by
            rw [List.mem_cons]
            rintro (rfl | hc)
            · exact hwd rfl
            · exact hw1 hc) hw2 hw3 hw4 nw hfnw

theorem sortLoop_spec (R : Registry) (hwf : (names R).Nodup) :
    ∀ (fuel : Nat) (dd : DDMap) (cands emitted : List String),
    SortInv R dd cands emitted →
    emitted.length + fuel = R.length →
    ∀ out, sortLoop R fuel dd cands emitted = .ok out →
    (∀ x ∈ out, x ∈ names R) ∧ out.Nodup ∧ out.length = R.length ∧
    (∀ i w, out[i]? = some w → ∀ nw, findNode R w = some nw →
      ∀ x ∈ depsSet nw, x ∈ out.take i) := by
  intro fuel
  induction fuel with
  | zero =>
    intro dd cands emitted hinv hlen out hok
    unfold SortInv at hinv
    obtain ⟨hEn, _, hEnd, _, _, _, hPrec, _⟩ := hinv
    have heq : emitted = out := SortResult.ok.inj hok
    subst heq
    exact ⟨hEn, hEnd, by omega, hPrec⟩
  | succ fuel ih =>
    intro dd cands emitted hinv hlen out hok
    unfold SortInv at hinv
    obtain ⟨hEn, hCn, hEnd, hCnd, hCE, hCdeps, hPrec, hDD⟩ := hinv
    cases hlast : cands.getLast? with
    | none =>
      unfold sortLoop at hok
      rw [hlast] at hok
      exact SortResult.noConfusion hok
    | some nm =>
      obtain ⟨c0, hcands⟩ := List.getLast?_eq_some_iff.mp hlast
      have hdrop : cands.dropLast = c0 := by
        rw [hcands]
        exact List.dropLast_concat
      have hok2 : sortLoop R fuel (processDeps nm (revDeps R nm) dd cands.dropLast).1
          (processDeps nm (revDeps R nm) dd cands.dropLast).2 (emitted ++ [nm]) =
          .ok out := by
        unfold sortLoop at hok
        rw [hlast] at hok
        exact hok
      rw [hdrop] at hok2
      have hnmc : nm ∈ cands := by
        rw [hcands]
        exact List.mem_append.mpr (Or.inr (List.mem_singleton.mpr rfl))
      have hnmn : nm ∈ names R := hCn nm hnmc
      obtain ⟨nnm, hnnm⟩ : ∃ x, findNode R nm = some x :=
        Option.isSome_iff_exists.mp (findNode_isSome_iff.mpr hnmn)
      have hnme : nm ∉ emitted := hCE nm hnmc
      have hnmdeps : ∀ x ∈ depsSet nnm, x ∈ emitted :=
        fun x hx => hCdeps nm hnmc nnm hnnm x hx
      have hc0sub : ∀ x ∈ c0, x ∈ cands := by
        intro x hx
        rw [hcands]
        exact List.mem_append.mpr (Or.inl hx)
      have hc0nodup : c0.Nodup := by
        have := hCnd
        rw [hcands, List.nodup_append] at this
        exact this.1
      have hnmc0 : nm ∉ c0 := by
        have := hCnd
        rw [hcands, List.nodup_append] at this
        intro hc
        exact this.2.2 hc (List.mem_singleton.mpr rfl)
      have hnotc : ∀ d, ∀ ndd, findNode R d = some ndd → nm ∈ depsSet ndd →
          d ∉ emitted ∧ d ≠ nm ∧ d ∉ cands := by
        intro d ndd hndd hnmdep
        refine ⟨?_, ?_, ?_⟩
        · intro hde
          obtain ⟨i, hi⟩ := List.getElem?_of_mem hde
          exact hnme (List.take_subset i emitted (hPrec i d hi ndd hndd nm hnmdep))
        · intro hc
          rw [hc] at hndd
          rw [hnnm] at hndd
          have heq : nnm = ndd := Option.some.inj hndd
          rw [← heq] at hnmdep
          exact hnme (hnmdeps nm (hc ▸ hnmdep))
        · intro hc
          exact hnme (hCdeps d hc ndd hndd nm hnmdep)
      have hpost := processDeps_spec R nm emitted (revDeps R nm) dd c0
        (revDeps_nodup hwf nm)
        (fun d hd => (mem_revDeps hwf).mp hd)
        (by
          intro d hd
          obtain ⟨ndd, hndd, hnmdep⟩ := (mem_revDeps hwf).mp hd
          obtain ⟨h1, h2, h3⟩ := hnotc d ndd hndd hnmdep
          exact ⟨h1, h2, fun hc => h3 (hc0sub d hc)⟩)
        (fun x hx => hCn x (hc0sub x hx))
        hc0nodup
        (fun x hx => ⟨hCE x (hc0sub x hx), fun hc => hnmc0 (hc ▸ hx)⟩)
        (fun c hc nc hfnc x hx =>
          List.mem_append.mpr (Or.inl (hCdeps c (hc0sub c hc) nc hfnc x hx)))
        (by
          intro w hw nw hfnw
          obtain ⟨ndd, hndd, hnmdep⟩ := (mem_revDeps hwf).mp hw
          have hnd : nw = ndd := by
            rw [hndd] at hfnw
            exact (Option.some.inj hfnw).symm
          subst hnd
          obtain ⟨h1, h2, h3⟩ := hnotc w nw hndd hnmdep
          exact hDD w h1 h3 nw hfnw)
        (by
          intro w hwrev hwe hwnm hwc0 nw hfnw
          have hwc : w ∉ cands := by
            rw [hcands]
            intro hc
            rcases List.mem_append.mp hc with hc | hc
            · exact hwc0 hc
            · exact hwnm (List.mem_singleton.mp hc)
          have hbase := hDD w hwe hwc nw hfnw
          have hnmdep : nm ∉ depsSet nw := by
            intro hc
            exact hwrev ((mem_revDeps hwf).mpr ⟨nw, hfnw, hc⟩)
          rw [hbase]
          congr 1
          refine List.filter_congr ?_
          intro x hx
          have hxnm : x ≠ nm := fun hc => hnmdep (hc ▸ hx)
          by_cases hxe : x ∈ emitted
          · simp [hxe, List.mem_append]
          · simp [hxe, hxnm, List.mem_append])
      obtain ⟨P1, P2, P3, P4, P5⟩ := hpost
      have hinv' : SortInv R (processDeps nm (revDeps R nm) dd c0).1
          (processDeps nm (revDeps R nm) dd c0).2 (emitted ++ [nm]) := by
        unfold SortInv
        refine ⟨?_, P1, ?_, P2, ?_, P4, ?_, ?_⟩
        · intro x hx
          rcases List.mem_append.mp hx with hx | hx
          · exact hEn x hx
          · rw [List.mem_singleton.mp hx]
            exact hnmn
        · rw [List.nodup_append]
          exact ⟨hEnd, List.nodup_singleton nm,
            fun x hx hxnm => hnme ((List.mem_singleton.mp hxnm) ▸ hx)⟩
        · intro x hx
          obtain ⟨h1, h2⟩ := P3 x hx
          rw [List.mem_append, List.mem_singleton]
          rintro (hc | hc)
          · exact h1 hc
          · exact h2 hc
        · intro i w hi nw hfnw x hx
          rcases Nat.lt_trichotomy i emitted.length with hlt | heq | hgt
          · rw [List.getElem?_append_left hlt] at hi
            have := hPrec i w hi nw hfnw x hx
            rw [List.take_append_eq_append_take, Nat.sub_eq_zero_of_le (Nat.le_of_lt hlt),
              List.take_zero, List.append_nil]
            exact this
          · subst heq
            rw [List.getElem?_concat_length] at hi
            have hw : w = nm := (Option.some.inj hi).symm
            subst hw
            have := Option.some.inj (hnnm ▸ hfnw : some nnm = some nw)
            rw [List.take_append_eq_append_take, Nat.sub_self, List.take_zero,
              List.append_nil, List.take_length]
            rw [← this] at hx
            exact hnmdeps x hx
          · rw [List.getElem?_eq_none (by
              rw [List.length_append, List.length_singleton]
              omega)] at hi
            cases hi
        · intro w hw hwc nw hfnw
          rw [List.mem_append, List.mem_singleton] at hw
          push_neg at hw
          exact P5 w hw.1 hw.2 hwc nw hfnw
      exact ih (processDeps nm (revDeps R nm) dd c0).1
        (processDeps nm (revDeps R nm) dd c0).2 (emitted ++ [nm]) hinv'
        (by
          rw [List.length_append, List.length_singleton]
          omega) out hok2

theorem sortInit_inv (R : Registry) (hwf : (names R).Nodup) :
    SortInv R (R.map (fun n => (n.name, depsSet n)))
      ((R.filter (fun n => (depsSet n).isEmpty)).map (·.name)) [] := by
  unfold SortInv
  refine ⟨?_, ?_, List.nodup_nil, ?_, ?_, ?_, ?_, ?_⟩
  · intro x hx
    cases hx
  · intro x hx
    rcases List.mem_map.mp hx with ⟨n, hn, hname⟩
    rw [← hname]
    exact List.mem_map_of_mem DAGNode.name (List.mem_of_mem_filter hn)
  · have hsub : List.Sublist
        ((R.filter (fun n => (depsSet n).isEmpty)).map (·.name)) (names R) :=
      (List.filter_sublist R).map _
    exact List.Nodup.sublist hsub hwf
  · intro x _ hx
    cases hx
  · intro c hc nc hfnc x hx
    rcases List.mem_map.mp hc with ⟨n, hn, hname⟩
    have hnd : nc = n := by
      have h1 : findNode R n.name = some n :=
        findNode_mem hwf (List.mem_of_mem_filter hn)
      rw [← hname, h1] at hfnc
      exact (Option.some.inj hfnc).symm
    have hdeps : depsSet n = [] :=
      List.isEmpty_iff.mp (by simpa using (List.mem_filter.mp hn).2)
    rw [hnd, hdeps] at hx
    cases hx
  · intro i w hi
    rw [List.getElem?_eq_none (by simp)] at hi
    cases hi
  · intro w _ _ nw hfnw
    rw [ddFind_init, hfnw]
    have : (depsSet nw).filter (fun x => decide (x ∉ ([] : List String))) = depsSet nw :=
      List.filter_eq_self.mpr (fun a _ => by simp)
    rw [this]
    rfl

/-- C1 amended: on a well-formed registry whose topological sort runs to
completion, the emitted sequence is a permutation of the registered names
(every node exactly once), and every member of a node's dependency set —
the union of its parents, the source names of its inputs and its deps —
appears strictly before that node; the token names of its outputs, other
than the native unit HTR and the unset-slot placeholder token, also appear
strictly before it whenever they are recorded in deps, which is the
invariant set_output maintains for every output it writes. -/
theorem topological_sorting_correct (R : Registry) (out : List String)
    (hwf : (names R).Nodup) (hok : topological_sorting R = SortResult.ok out) :
    out.Perm (names R) ∧
    ∀ nd ∈ R, ∃ i, out[i]? = some nd.name ∧
      (∀ x, (x ∈ nd.parents ∨ x ∈ nd.inputs.map DAGInput.src ∨ x ∈ nd.deps) →
        x ∈ out.take i) ∧
      ((∀ m ∈ R, ∀ o ∈ m.outputs, ∀ dsc, o = some dsc → dsc.token ≠ "HTR" →
          dsc.token ≠ "" → dsc.token ∈ m.deps) →
        ∀ o ∈ nd.outputs, ∀ dsc, o = some dsc → dsc.token ≠ "HTR" → dsc.token ≠ "" →
          dsc.token ∈ out.take i) := by
  unfold topological_sorting at hok
  obtain ⟨Q1, Q2, Q3, Q4⟩ := sortLoop_spec R hwf R.length
    (R.map (fun n => (n.name, depsSet n)))
    ((R.filter (fun n => (depsSet n).isEmpty)).map (·.name)) []
    (sortInit_inv R hwf) (by simp) out hok
  have hperm : out.Perm (names R) := by
    obtain ⟨l, hp, hs⟩ := List.subperm_of_subset Q2 Q1
    have hlen : l.length = (names R).length := by
      rw [hp.length_eq, Q3]
      unfold names
      rw [List.length_map]
    have := List.Sublist.eq_of_length hs hlen
    rw [← this]
    exact hp.symm
  refine ⟨hperm, ?_⟩
  intro nd hnd
  have hmem : nd.name ∈ out := hperm.mem_iff.mpr (List.mem_map_of_mem DAGNode.name hnd)
  obtain ⟨i, hi⟩ := List.getElem?_of_mem hmem
  have hfind : findNode R nd.name = some nd := findNode_mem hwf hnd
  have hdeps := Q4 i nd.name hi nd hfind
  refine ⟨i, hi, ?_, ?_⟩
  · intro x hx
    exact hdeps x (mem_depsSet.mpr hx)
  · intro hinv o ho dsc hdsc h1 h2
    have : dsc.token ∈ nd.deps := hinv nd hnd o ho dsc hdsc h1 h2
    exact hdeps dsc.token (mem_depsSet.mpr (Or.inr (Or.inr this)))

/-- C1 amended witness: a two-node registry b-parented-to-a sorts to
a then b, a permutation of its names. -/
theorem topological_sorting_correct_witness :
    (["a", "b"] : List String).Perm
      (names [⟨"a", .Unknown, [], [], [], [], []⟩,
        ⟨"b", .Unknown, ["a"], [], [], [], []⟩]) :=
  (topological_sorting_correct
    [⟨"a", .Unknown, [], [], [], [], []⟩, ⟨"b", .Unknown, ["a"], [], [], [], []⟩]
    ["a", "b"] (by decide) rfl).1
